import Mathlib

/-!
Shallow embedding of the transcript time-range filtering and formatting core of
the yt-transcript-downloader repository (`src/transcript_utils.py` and
`src/main.py`), together with proofs checking the specification's claims.

Python floats are modelled as rationals; Python strings as Lean `String`, with
the character-level operations (strip, split, decimal parsing and rendering)
implemented over `List Char`, mirroring CPython semantics on the
decimal-literal subset relevant here (exponent forms, `inf` and `nan`, and
digit underscore separators are outside the modelled subset).
-/

namespace YT

/-- Characters treated as whitespace by Python's `str.strip` and `\s`
(ASCII subset: space, tab, newline, carriage return, vertical tab, form feed). -/
def pyIsSpace (c : Char) : Bool :=
  c = ' ' || c = '\t' || c = '\n' || c = '\r' || c = '\x0b' || c = '\x0c'

/-- Python `str.strip()` on a character list. -/
def pyStrip (cs : List Char) : List Char :=
  ((cs.dropWhile pyIsSpace).reverse.dropWhile pyIsSpace).reverse

/-- Python `str.split(sep)` for a single-character separator. -/
def splitOnChar (sep : Char) : List Char → List (List Char)
  | [] => [[]]
  | c :: cs =>
    if c = sep then [] :: splitOnChar sep cs
    else
      match splitOnChar sep cs with
      | [] => [[c]]
      | p :: ps => (c :: p) :: ps

/-- The decimal digit character for `d` (every use has `d < 10`). -/
def digitChar (d : ℕ) : Char :=
  match d with
  | 0 => '0'
  | 1 => '1'
  | 2 => '2'
  | 3 => '3'
  | 4 => '4'
  | 5 => '5'
  | 6 => '6'
  | 7 => '7'
  | 8 => '8'
  | _ => '9'

/-- Membership in the ten decimal digit characters. -/
def isDigitChar (c : Char) : Prop :=
  c ∈ ['0', '1', '2', '3', '4', '5', '6', '7', '8', '9']

instance (c : Char) : Decidable (isDigitChar c) := by
  unfold isDigitChar
  infer_instance

/-- Numeric value of a run of decimal digit characters (most significant first). -/
def digitsVal (cs : List Char) : ℕ :=
  cs.foldl (fun acc c => acc * 10 + (c.toNat - 48)) 0

/-- Decimal digits of `n`, most significant first; `fuel` bounds the recursion
depth (any `fuel ≥ n` is enough). -/
def natDigitsAux (fuel : ℕ) (n : ℕ) : List Char :=
  match fuel with
  | 0 => []
  | f + 1 => if n = 0 then [] else natDigitsAux f (n / 10) ++ [digitChar (n % 10)]

/-- Decimal rendering of a natural number, as Python `str(n)`. -/
def natDigitsChars (n : ℕ) : List Char :=
  if n = 0 then ['0'] else natDigitsAux n n

/-- Decimal rendering of an integer, as Python `str(n)`. -/
def intChars (n : ℤ) : List Char :=
  if n < 0 then '-' :: natDigitsChars n.natAbs else natDigitsChars n.toNat

/-- Python `f"{n:02d}"`: decimal rendering zero-padded to width 2. -/
def pad2 (n : ℤ) : List Char :=
  if 0 ≤ n ∧ n < 10 then '0' :: intChars n else intChars n

/-- Python `round` to an integer: round-half-to-even (banker's rounding). -/
def pyRound (q : ℚ) : ℤ :=
  if q - ⌊q⌋ < 1/2 then ⌊q⌋
  else if 1/2 < q - ⌊q⌋ then ⌊q⌋ + 1
  else if ⌊q⌋ % 2 = 0 then ⌊q⌋ else ⌊q⌋ + 1

/-- Unsigned part of CPython `float(s)`: decimal digits with at most one
decimal point and at least one digit overall, scaled by the sign `sgn`. -/
def parseFloatDigits (sgn : ℚ) (cs : List Char) : Option ℚ :=
  match splitOnChar '.' cs with
  | [ip] =>
    if ip ≠ [] ∧ ip.all Char.isDigit then some (sgn * digitsVal ip) else none
  | [ip, fp] =>
    if (ip ≠ [] ∨ fp ≠ []) ∧ ip.all Char.isDigit ∧ fp.all Char.isDigit then
      some (sgn * ((digitsVal ip : ℚ) + (digitsVal fp : ℚ) / (10 ^ fp.length)))
    else none
  | _ => none

/-- CPython `float(s)` on the finite-decimal-literal subset: optional
surrounding whitespace, an optional sign, then decimal digits with at most one
decimal point and at least one digit overall. -/
def parseFloat (cs0 : List Char) : Option ℚ :=
  if (pyStrip cs0).head? = some '-' then parseFloatDigits (-1) (pyStrip cs0).tail
  else if (pyStrip cs0).head? = some '+' then parseFloatDigits 1 (pyStrip cs0).tail
  else parseFloatDigits 1 (pyStrip cs0)

/-- All-or-nothing parse of the colon-separated parts: the
`[float(p) for p in parts]` comprehension inside `try`/`except`. -/
def parseParts : List (List Char) → Option (List ℚ)
  | [] => some []
  | p :: ps =>
    match parseFloat p, parseParts ps with
    | some v, some vs => some (v :: vs)
    | _, _ => none

/-- Body of `parse_timecode` from `src/transcript_utils.py`, on a character
list: strip, reject empty, split on `:`, parse each part, combine by arity. -/
def parse_timecode_chars (cs0 : List Char) : Option ℚ :=
  if pyStrip cs0 = [] then none
  else
    match parseParts (splitOnChar ':' (pyStrip cs0)) with
    | some [x] => some x
    | some [m, s] => some (m * 60 + s)
    | some [h, m, s] => some (h * 3600 + m * 60 + s)
    | _ => none

/-- `parse_timecode` from `src/transcript_utils.py`: `"ss"`, `"mm:ss"` or
`"hh:mm:ss"` (decimal components allowed) to seconds; `none` when empty or
invalid. -/
def parse_timecode (s : String) : Option ℚ :=
  parse_timecode_chars s.data

/-- Body of `format_timestamp`: render a rounded total number of seconds as
`hh:mm:ss` when the hour field is positive, else `mm:ss`. -/
def formatTotal (total : ℤ) : List Char :=
  if 0 < total / 3600 then
    pad2 (total / 3600) ++
      (':' :: (pad2 (total % 3600 / 60) ++ (':' :: pad2 (total % 60))))
  else pad2 (total % 3600 / 60) ++ (':' :: pad2 (total % 60))

/-- `format_timestamp` from `src/transcript_utils.py`. -/
def format_timestamp (seconds : ℚ) : String :=
  String.mk (formatTotal (pyRound seconds))

/-- One transcript segment: `{"text": ..., "start": ..., "duration": ...}`. -/
structure Segment where
  text : String
  start : ℚ
  duration : ℚ
deriving DecidableEq

/-- `AppState` from `src/transcript_utils.py`. -/
structure AppState where
  full_segments : List Segment
  video_title : Option String
  video_description : Option String
  current_text : String
  video_length : Option ℚ
  video_url : Option String
deriving DecidableEq

/-- `get_video_duration` from `src/transcript_utils.py`: `video_length` when
present, else inferred from the last segment, else nothing. -/
def get_video_duration (state : AppState) : Option ℚ :=
  match state.video_length with
  | some v => some v
  | none =>
    match state.full_segments.getLast? with
    | some last => some (last.start + last.duration)
    | none => none

/-- The `for i, seg in enumerate(segments)` search in `build_filtered_text` for
the first segment satisfying `p`, returning its index. -/
def findFirstAux (p : Segment → Bool) (i : ℕ) : List Segment → Option ℕ
  | [] => none
  | seg :: rest => if p seg then some i else findFirstAux p (i + 1) rest

/-- The `last_idx` loop of `build_filtered_text`: last index whose `start` is
at most `es`, with the accumulator starting at 0. -/
def lastLeAux (es : ℚ) (i acc : ℕ) : List Segment → ℕ
  | [] => acc
  | seg :: rest => lastLeAux es (i + 1) (if seg.start ≤ es then i else acc) rest

/-- Start-index selection of `build_filtered_text` (lines 138-148 of
`src/transcript_utils.py`); Python's `max(0, i - 1)` is ℕ-subtraction here. -/
def start_index (segments : List Segment) (ss? : Option ℚ) : ℕ :=
  match ss? with
  | none => 0
  | some ss =>
    match findFirstAux (fun seg => decide (ss ≤ seg.start)) 0 segments with
    | some i => i - 1
    | none => segments.length - 2

/-- End-index selection of `build_filtered_text` (lines 150-156 of
`src/transcript_utils.py`). -/
def end_index (segments : List Segment) (es? : Option ℚ) : ℕ :=
  match es? with
  | none => segments.length - 1
  | some es => min (segments.length - 1) (lastLeAux es 0 0 segments + 1)

/-- The slice `segments[idx_start : idx_end + 1]` taken by
`build_filtered_text`. -/
def filtered_segments (segments : List Segment) (start_str end_str : String) :
    List Segment :=
  let a := start_index segments (parse_timecode start_str)
  let b := end_index segments (parse_timecode end_str)
  (segments.drop a).take (b + 1 - a)

/-- Per-segment line rendering in `build_filtered_text`: timestamp placement by
`display_mode`, newlines inside the text replaced by spaces, then stripped. -/
def render_segment (display_mode : String) (seg : Segment) : List Char :=
  let ts := formatTotal (pyRound seg.start)
  let text := pyStrip (seg.text.data.map (fun c => if c = '\n' then ' ' else c))
  if display_mode = "ts_newline" then '[' :: (ts ++ (']' :: '\n' :: text))
  else if display_mode = "ts_before" then '[' :: (ts ++ (']' :: ' ' :: text))
  else if display_mode = "ts_after" then text ++ (' ' :: '[' :: (ts ++ [']']))
  else text

/-- `build_filtered_text` from `src/transcript_utils.py`. -/
def build_filtered_text (segments : List Segment)
    (start_str end_str display_mode : String)
    (include_title include_description : Bool)
    (video_title video_description : Option String) : String :=
  if segments = [] then ""
  else
    let filtered := filtered_segments segments start_str end_str
    let lines := filtered.map (render_segment display_mode)
    let body :=
      if display_mode = "no_ts_block" then List.intercalate [' '] lines
      else List.intercalate ['\n'] lines
    let tpart : List (List Char) :=
      match video_title with
      | some t => if include_title ∧ t ≠ "" then [pyStrip t.data] else []
      | none => []
    let dpart : List (List Char) :=
      match video_description with
      | some dsc => if include_description ∧ dsc ≠ "" then [pyStrip dsc.data] else []
      | none => []
    let header_parts := tpart ++ dpart
    if header_parts ≠ [] then
      let header := List.intercalate ['\n', '\n'] header_parts
      if body ≠ [] then String.mk (header ++ ('\n' :: '\n' :: body))
      else String.mk header
    else String.mk body

/-- The characters removed outright by `sanitize_filename`. -/
def illegalChar (c : Char) : Bool :=
  c = '\\' || c = '/' || c = ':' || c = '*' || c = '?' || c = '"' ||
    c = '<' || c = '>' || c = '|'

/-- Worker for `collapseWs`: `inRun` records whether the previous character was
whitespace (so the current run already emitted its underscore). -/
def collapseWsAux (inRun : Bool) : List Char → List Char
  | [] => []
  | c :: cs =>
    if pyIsSpace c then
      if inRun then collapseWsAux true cs else '_' :: collapseWsAux true cs
    else c :: collapseWsAux false cs

/-- Replace each maximal whitespace run by one underscore:
`re.sub(r"\s+", "_", name)`. -/
def collapseWs (cs : List Char) : List Char :=
  collapseWsAux false cs

/-- Python `name.strip("_")`. -/
def stripUnderscores (cs : List Char) : List Char :=
  ((cs.dropWhile (fun c => c = '_')).reverse.dropWhile (fun c => c = '_')).reverse

/-- `sanitize_filename` from `src/transcript_utils.py`. -/
def sanitize_filename (name : String) : String :=
  let cs1 := name.data.filter (fun c => !illegalChar c)
  let cs2 := collapseWs cs1
  let cs3 := stripUnderscores cs2
  if cs3 = [] then "transcript" else String.mk cs3

/-- Error taxonomy of `validate_time_range` (the HTTP 400 details raised in
`src/main.py`). -/
inductive RangeError where
  | NoTranscriptLoaded
  | InvalidStartFormat
  | InvalidEndFormat
  | EndNotAfterStart
deriving DecidableEq

/-- The duration-determination block of `validate_time_range` (lines 254-264 of
`src/main.py`): `video_length` when positive, else the end of the last
segment, else nothing. -/
def inferred_duration (video_length : Option ℚ) (segments : List Segment) :
    Option ℚ :=
  match video_length with
  | some d =>
    if d ≤ 0 then
      match segments.getLast? with
      | some last => some (last.start + last.duration)
      | none => none
    else some d
  | none =>
    match segments.getLast? with
    | some last => some (last.start + last.duration)
    | none => none

/-- The four-way combination block of `validate_time_range` (lines 270-290 of
`src/main.py`), on the already-stripped bound strings: empty bounds default to
`0` and `duration`, parse failures name the offending side. -/
def resolve_bounds (duration : ℚ) (raw_start raw_end : List Char) :
    Except RangeError (ℚ × ℚ) :=
  if raw_start = [] ∧ raw_end = [] then .ok (0, duration)
  else if raw_start ≠ [] ∧ raw_end = [] then
    match parse_timecode_chars raw_start with
    | none => .error .InvalidStartFormat
    | some v => .ok (v, duration)
  else if raw_start = [] ∧ raw_end ≠ [] then
    match parse_timecode_chars raw_end with
    | none => .error .InvalidEndFormat
    | some v => .ok (0, v)
  else
    match parse_timecode_chars raw_start, parse_timecode_chars raw_end with
    | none, _ => .error .InvalidStartFormat
    | some _, none => .error .InvalidEndFormat
    | some a, some b => .ok (a, b)

/-- `validate_time_range` from `src/main.py` (the spec's `resolve_range`):
determine the duration, resolve both bounds, clamp into `[0, duration]`,
require a strictly positive span, and re-render both bounds. -/
def validate_time_range (start_str end_str : String) (video_length : Option ℚ)
    (segments : List Segment) : Except RangeError (String × String) :=
  match inferred_duration video_length segments with
  | none => .error .NoTranscriptLoaded
  | some duration =>
    match resolve_bounds duration (pyStrip start_str.data) (pyStrip end_str.data) with
    | .error e => .error e
    | .ok (s0, e0) =>
      if max 0 (min e0 duration) ≤ max 0 (min s0 duration) then
        .error .EndNotAfterStart
      else
        .ok (format_timestamp (max 0 (min s0 duration)),
          format_timestamp (max 0 (min e0 duration)))

/-- Outcome of the `/api/export` endpoint: a download (filename and media type;
the byte serialization itself is delegated to external document writers) or an
HTTP 400 detail string. -/
inductive ExportOutcome where
  | file (filename : String) (media_type : String)
  | httpError (detail : String)
deriving DecidableEq

/-- Control flow of `export_file` from `src/main.py`. -/
def export_file (text filename fmt : String) : ExportOutcome :=
  if text = "" then .httpError "Nothing to export"
  else
    let base_name := if filename = "" then "transcript" else sanitize_filename filename
    if fmt = "txt" then .file (base_name ++ ".txt") "text/plain"
    else if fmt = "csv" then .file (base_name ++ ".csv") "text/csv"
    else if fmt = "docx" then
      .file (base_name ++ ".docx")
        "application/vnd.openxmlformats-officedocument.wordprocessingml.document"
    else if fmt = "pdf" then .file (base_name ++ ".pdf") "application/pdf"
    else .httpError "Unknown export type"

/-- Start offset of the segment at index `k` (0 when out of range). -/
def startAt (segments : List Segment) (k : ℕ) : ℚ :=
  match segments[k]? with
  | some seg => seg.start
  | none => 0

/-- Index `i` holds the first segment with `start ≥ ss`. -/
def FirstStartGe (segments : List Segment) (ss : ℚ) (i : ℕ) : Prop :=
  i < segments.length ∧ ss ≤ startAt segments i ∧
    ∀ k, k < i → startAt segments k < ss

/-- Index `j` holds the last segment with `start ≤ es`. -/
def LastStartLe (segments : List Segment) (es : ℚ) (j : ℕ) : Prop :=
  j < segments.length ∧ startAt segments j ≤ es ∧
    ∀ k, k < segments.length → j < k → es < startAt segments k

/-- Segments sorted ascending by `start`. -/
def SortedByStart (segments : List Segment) : Prop :=
  segments.Pairwise (fun a b => a.start ≤ b.start)

/-- Duration unknown or nonpositive, with no segments to infer it from. -/
def duration_missing (video_length : Option ℚ) (segments : List Segment) : Prop :=
  (video_length = none ∨ ∃ d, video_length = some d ∧ d ≤ 0) ∧ segments = []

/-- A bound string that is nonempty after stripping but does not parse. -/
def bad_time (s : String) : Prop :=
  pyStrip s.data ≠ [] ∧ parse_timecode s = none

/-- Clamp `x` into `[0, d]`. -/
def clampTo (d x : ℚ) : ℚ := max 0 (min x d)

/-- The value `validate_time_range` resolves a start string to (0 when unset). -/
def resolved_start (s : String) : ℚ := (parse_timecode s).getD 0

/-- The value `validate_time_range` resolves an end string to, given the
duration `d` (the default when unset). -/
def resolved_end (s : String) (d : ℚ) : ℚ := (parse_timecode s).getD d

/-! ### Character-list lemmas -/

lemma dropWhile_eq_self_of_head {α : Type} {p : α → Bool} {l : List α}
    (h : ∀ c, l.head? = some c → p c = false) : l.dropWhile p = l := by
  cases l with
  | nil => rfl
  | cons c cs =>
    have hc := h c rfl
    simp [List.dropWhile_cons, hc]

lemma head?_dropWhile_false {α : Type} {p : α → Bool} {l : List α} {c : α}
    (h : (l.dropWhile p).head? = some c) : p c = false := by
  have hm := List.head?_dropWhile_not p l
  rw [h] at hm
  exact hm

lemma dropWhile_idem {α : Type} (p : α → Bool) (l : List α) :
    (l.dropWhile p).dropWhile p = l.dropWhile p :=
  dropWhile_eq_self_of_head fun _ hc => head?_dropWhile_false hc

lemma getLast?_dropWhile {α : Type} {p : α → Bool} {l : List α}
    (h : l.dropWhile p ≠ []) : (l.dropWhile p).getLast? = l.getLast? := by
  induction l with
  | nil => simp at h
  | cons c cs ih =>
    by_cases hc : p c
    · rw [List.dropWhile_cons_of_pos hc] at h ⊢
      rcases cs with _ | ⟨d, ds⟩
      · simp at h
      · rw [ih h, List.getLast?_cons_cons]
    · rw [List.dropWhile_cons_of_neg hc]

lemma pyStrip_eq_self {l : List Char} (h : ∀ c ∈ l, pyIsSpace c = false) :
    pyStrip l = l := by
  unfold pyStrip
  have h1 : l.dropWhile pyIsSpace = l :=
    dropWhile_eq_self_of_head fun c hc => h c (List.mem_of_mem_head? (by simp [hc]))
  rw [h1]
  have h2 : l.reverse.dropWhile pyIsSpace = l.reverse :=
    dropWhile_eq_self_of_head fun c hc =>
      h c (by
        have : c ∈ l.reverse := List.mem_of_mem_head? (by simp [hc])
        simpa using this)
  rw [h2, List.reverse_reverse]

lemma pyStrip_nil : pyStrip [] = [] := rfl

lemma pyStrip_idem (l : List Char) : pyStrip (pyStrip l) = pyStrip l := by
  unfold pyStrip
  set A := l.dropWhile pyIsSpace with hA
  set B := A.reverse.dropWhile pyIsSpace with hB
  rcases hBe : B with _ | ⟨b, bs⟩
  · simp
  · have hBne : B ≠ [] := by rw [hBe]; simp
    have hhead : ∀ c, B.reverse.reverse.head? = some c → pyIsSpace c = false := by
      intro c hc
      rw [List.reverse_reverse] at hc
      exact head?_dropWhile_false (hB ▸ hc)
    have hlast : ∀ c, B.reverse.head? = some c → pyIsSpace c = false := by
      intro c hc
      rw [List.head?_reverse] at hc
      rw [hB] at hc hBne
      rw [getLast?_dropWhile hBne] at hc
      rw [List.getLast?_reverse] at hc
      exact head?_dropWhile_false (hA ▸ hc)
    rw [← hBe]
    rw [dropWhile_eq_self_of_head hlast, List.reverse_reverse,
      hB, dropWhile_idem]

/-! ### Decimal digit lemmas -/

lemma digitChar_mem_digits (d : ℕ) : isDigitChar (digitChar d) := by
  unfold digitChar
  split <;> decide

lemma isDigitChar_props {c : Char} (h : isDigitChar c) :
    c.isDigit = true ∧ pyIsSpace c = false ∧ c ≠ ':' ∧ c ≠ '.' ∧
      c ≠ '-' ∧ c ≠ '+' := by
  unfold isDigitChar at h
  fin_cases h <;> exact ⟨by decide, by decide, by decide, by decide, by decide, by decide⟩

lemma digitsVal_nil : digitsVal [] = 0 := rfl

lemma digitsVal_append_singleton (cs : List Char) (c : Char) :
    digitsVal (cs ++ [c]) = digitsVal cs * 10 + (c.toNat - 48) := by
  unfold digitsVal
  rw [List.foldl_append]
  rfl

lemma digitsVal_cons_zero (cs : List Char) : digitsVal ('0' :: cs) = digitsVal cs := by
  unfold digitsVal
  rw [List.foldl_cons]
  norm_num [show '0'.toNat = 48 from by decide]

lemma digitChar_val {d : ℕ} (h : d < 10) : (digitChar d).toNat - 48 = d := by
  interval_cases d <;> decide

lemma natDigitsAux_spec (fuel : ℕ) : ∀ n, n ≤ fuel →
    digitsVal (natDigitsAux fuel n) = n ∧ ∀ c ∈ natDigitsAux fuel n, isDigitChar c := by
  induction fuel with
  | zero =>
    intro n hn
    interval_cases n
    exact ⟨rfl, by simp [natDigitsAux]⟩
  | succ f ih =>
    intro n hn
    by_cases h0 : n = 0
    · subst h0
      exact ⟨rfl, by simp [natDigitsAux]⟩
    · unfold natDigitsAux
      rw [if_neg h0]
      have hdiv : n / 10 ≤ f := by
        have h1 : n / 10 < n := Nat.div_lt_self (Nat.pos_of_ne_zero h0) (by norm_num)
        omega
      obtain ⟨ih1, ih2⟩ := ih (n / 10) hdiv
      constructor
      · rw [digitsVal_append_singleton, ih1, digitChar_val (Nat.mod_lt n (by norm_num))]
        omega
      · intro c hc
        rcases List.mem_append.mp hc with h1 | h2
        · exact ih2 c h1
        · have : c = digitChar (n % 10) := by simpa using h2
          rw [this]
          exact digitChar_mem_digits _

lemma natDigitsChars_spec (n : ℕ) :
    digitsVal (natDigitsChars n) = n ∧ natDigitsChars n ≠ [] ∧
      ∀ c ∈ natDigitsChars n, isDigitChar c := by
  unfold natDigitsChars
  by_cases h0 : n = 0
  · subst h0
    exact ⟨rfl, by decide, by decide⟩
  · rw [if_neg h0]
    obtain ⟨h1, h2⟩ := natDigitsAux_spec n n le_rfl
    refine ⟨h1, ?_, h2⟩
    intro hnil
    rw [hnil, digitsVal_nil] at h1
    exact h0 h1.symm

lemma intChars_nonneg {n : ℤ} (h : 0 ≤ n) :
    (digitsVal (intChars n) : ℤ) = n ∧ intChars n ≠ [] ∧
      ∀ c ∈ intChars n, isDigitChar c := by
  unfold intChars
  rw [if_neg (by omega)]
  obtain ⟨h1, h2, h3⟩ := natDigitsChars_spec n.toNat
  exact ⟨by rw [h1]; omega, h2, h3⟩

lemma pad2_spec {n : ℤ} (h : 0 ≤ n) :
    (digitsVal (pad2 n) : ℤ) = n ∧ pad2 n ≠ [] ∧ ∀ c ∈ pad2 n, isDigitChar c := by
  obtain ⟨h1, h2, h3⟩ := intChars_nonneg h
  unfold pad2
  by_cases hlt : 0 ≤ n ∧ n < 10
  · rw [if_pos hlt]
    refine ⟨?_, by simp, ?_⟩
    · rw [digitsVal_cons_zero]
      exact h1
    · intro c hc
      rcases List.mem_cons.mp hc with h4 | h4
      · rw [h4]; decide
      · exact h3 c h4
  · rw [if_neg hlt]
    exact ⟨h1, h2, h3⟩

/-! ### Split lemmas -/

lemma splitOnChar_cons (sep c : Char) (cs : List Char) :
    splitOnChar sep (c :: cs) =
      if c = sep then [] :: splitOnChar sep cs
      else
        match splitOnChar sep cs with
        | [] => [[c]]
        | p :: ps => (c :: p) :: ps := rfl

lemma splitOnChar_no_sep {sep : Char} {cs : List Char} (h : ∀ c ∈ cs, c ≠ sep) :
    splitOnChar sep cs = [cs] := by
  induction cs with
  | nil => rfl
  | cons c cs ih =>
    rw [splitOnChar_cons, if_neg (h c (List.mem_cons_self c cs))]
    rw [ih fun c' hc' => h c' (List.mem_cons_of_mem c hc')]

lemma splitOnChar_append {sep : Char} {xs : List Char} (ys : List Char)
    (h : ∀ c ∈ xs, c ≠ sep) :
    splitOnChar sep (xs ++ sep :: ys) = xs :: splitOnChar sep ys := by
  induction xs with
  | nil =>
    show splitOnChar sep (sep :: ys) = [] :: splitOnChar sep ys
    rw [splitOnChar_cons, if_pos rfl]
  | cons x xs ih =>
    show splitOnChar sep (x :: (xs ++ sep :: ys)) = (x :: xs) :: splitOnChar sep ys
    rw [splitOnChar_cons, if_neg (h x (List.mem_cons_self x xs))]
    rw [ih fun c' hc' => h c' (List.mem_cons_of_mem x hc')]

/-! ### parseFloat on digit strings -/

lemma parseFloatDigits_all_digits {cs : List Char} (sgn : ℚ) (hne : cs ≠ [])
    (hd : ∀ c ∈ cs, isDigitChar c) :
    parseFloatDigits sgn cs = some (sgn * (digitsVal cs : ℚ)) := by
  unfold parseFloatDigits
  rw [splitOnChar_no_sep fun c hc => (isDigitChar_props (hd c hc)).2.2.2.1]
  dsimp only
  rw [if_pos ⟨hne, List.all_eq_true.mpr fun c hc => (isDigitChar_props (hd c hc)).1⟩]

lemma parseFloat_all_digits {cs : List Char} (hne : cs ≠ [])
    (hd : ∀ c ∈ cs, isDigitChar c) : parseFloat cs = some ((digitsVal cs : ℚ)) := by
  unfold parseFloat
  have hstrip : pyStrip cs = cs :=
    pyStrip_eq_self fun c hc => ((isDigitChar_props (hd c hc)).2.1)
  rw [hstrip]
  rcases cs with _ | ⟨c0, rest⟩
  · exact absurd rfl hne
  · have hprops := isDigitChar_props (hd c0 (List.mem_cons_self c0 rest))
    have hminus : ¬ ((c0 :: rest).head? = some '-') := by
      intro hcon
      exact hprops.2.2.2.2.1 (Option.some.inj hcon)
    have hplus : ¬ ((c0 :: rest).head? = some '+') := by
      intro hcon
      exact hprops.2.2.2.2.2 (Option.some.inj hcon)
    rw [if_neg hminus, if_neg hplus]
    rw [parseFloatDigits_all_digits 1 hne hd, one_mul]

/-! ### pyRound lemmas -/

lemma floor_le_pyRound (q : ℚ) : ⌊q⌋ ≤ pyRound q := by
  unfold pyRound
  split_ifs <;> omega

lemma pyRound_le_floor_add_one (q : ℚ) : pyRound q ≤ ⌊q⌋ + 1 := by
  unfold pyRound
  split_ifs <;> omega

lemma pyRound_intCast (n : ℤ) : pyRound (n : ℚ) = n := by
  unfold pyRound
  rw [Int.floor_intCast]
  rw [if_pos (by norm_num)]

lemma pyRound_natCast (n : ℕ) : pyRound (n : ℚ) = n := by
  have h := pyRound_intCast (n : ℤ)
  rw [Int.cast_natCast] at h
  exact h

lemma pyRound_nonneg {q : ℚ} (h : 0 ≤ q) : 0 ≤ pyRound q := by
  have h1 : (0 : ℤ) ≤ ⌊q⌋ := Int.floor_nonneg.mpr h
  have h2 := floor_le_pyRound q
  omega

lemma pyRound_mono {a b : ℚ} (h : a ≤ b) : pyRound a ≤ pyRound b := by
  rcases lt_or_eq_of_le (Int.floor_le_floor h) with hf | hf
  · have h1 := pyRound_le_floor_add_one a
    have h2 := floor_le_pyRound b
    omega
  · unfold pyRound
    rw [hf]
    have hfr : b - ⌊b⌋ - (a - ⌊b⌋) = b - a := by ring
    have hab : a - ⌊b⌋ ≤ b - ⌊b⌋ := by linarith
    split_ifs <;> first | omega | linarith

lemma pyRound_le (q : ℚ) : (pyRound q : ℚ) ≤ q + 1/2 := by
  unfold pyRound
  have hf := Int.floor_le q
  split_ifs with h1 h2 h3 <;> push_cast <;> linarith

lemma le_pyRound (q : ℚ) : q - 1/2 ≤ (pyRound q : ℚ) := by
  unfold pyRound
  have hf := Int.floor_le q
  have hc := Int.lt_floor_add_one q
  split_ifs with h1 h2 h3 <;> push_cast <;> linarith

/-! ### Round trip: format then parse -/

lemma parseParts_nil : parseParts [] = some [] := rfl

lemma parseParts_cons (p : List Char) (ps : List (List Char)) :
    parseParts (p :: ps) =
      match parseFloat p, parseParts ps with
      | some v, some vs => some (v :: vs)
      | _, _ => none := rfl

lemma parseParts_digit_blocks {ps : List (List Char)}
    (h : ∀ p ∈ ps, p ≠ [] ∧ ∀ c ∈ p, isDigitChar c) :
    parseParts ps = some (ps.map fun p => ((digitsVal p : ℚ))) := by
  induction ps with
  | nil => rfl
  | cons p ps ih =>
    rw [parseParts_cons,
      parseFloat_all_digits (h p (List.mem_cons_self p ps)).1
        (h p (List.mem_cons_self p ps)).2,
      ih fun p' hp' => h p' (List.mem_cons_of_mem p hp')]
    rfl

lemma pad2_no_colon {n : ℤ} (h : 0 ≤ n) : ∀ c ∈ pad2 n, c ≠ ':' :=
  fun c hc => (isDigitChar_props ((pad2_spec h).2.2 c hc)).2.2.1

lemma pad2_no_space {n : ℤ} (h : 0 ≤ n) : ∀ c ∈ pad2 n, pyIsSpace c = false :=
  fun c hc => (isDigitChar_props ((pad2_spec h).2.2 c hc)).2.1

lemma formatTotal_no_space {t : ℤ} (ht : 0 ≤ t) :
    ∀ c ∈ formatTotal t, pyIsSpace c = false := by
  have hh : 0 ≤ t / 3600 := Int.ediv_nonneg ht (by norm_num)
  have hm : 0 ≤ t % 3600 / 60 :=
    Int.ediv_nonneg (Int.emod_nonneg t (by norm_num)) (by norm_num)
  have hs : 0 ≤ t % 60 := Int.emod_nonneg t (by norm_num)
  intro c hc
  unfold formatTotal at hc
  split_ifs at hc
  · rcases List.mem_append.mp hc with h1 | h1
    · exact pad2_no_space hh c h1
    · rcases List.mem_cons.mp h1 with h2 | h2
      · rw [h2]; decide
      · rcases List.mem_append.mp h2 with h3 | h3
        · exact pad2_no_space hm c h3
        · rcases List.mem_cons.mp h3 with h4 | h4
          · rw [h4]; decide
          · exact pad2_no_space hs c h4
  · rcases List.mem_append.mp hc with h1 | h1
    · exact pad2_no_space hm c h1
    · rcases List.mem_cons.mp h1 with h2 | h2
      · rw [h2]; decide
      · exact pad2_no_space hs c h2

lemma formatTotal_ne_nil (t : ℤ) : formatTotal t ≠ [] := by
  unfold formatTotal
  split_ifs <;> intro hcon <;>
    rcases List.append_eq_nil.mp hcon with ⟨_, h2⟩ <;> exact List.cons_ne_nil _ _ h2

lemma parse_timecode_chars_formatTotal {t : ℤ} (ht : 0 ≤ t) :
    parse_timecode_chars (formatTotal t) = some ((t : ℚ)) := by
  have hh : 0 ≤ t / 3600 := Int.ediv_nonneg ht (by norm_num)
  have hm : 0 ≤ t % 3600 / 60 :=
    Int.ediv_nonneg (Int.emod_nonneg t (by norm_num)) (by norm_num)
  have hs : 0 ≤ t % 60 := Int.emod_nonneg t (by norm_num)
  have hstrip : pyStrip (formatTotal t) = formatTotal t :=
    pyStrip_eq_self (formatTotal_no_space ht)
  unfold parse_timecode_chars
  rw [hstrip, if_neg (formatTotal_ne_nil t)]
  have eH := (pad2_spec hh).1
  have eM := (pad2_spec hm).1
  have eS := (pad2_spec hs).1
  unfold formatTotal
  split_ifs with hpos
  · rw [splitOnChar_append _ (pad2_no_colon hh),
      splitOnChar_append _ (pad2_no_colon hm),
      splitOnChar_no_sep (pad2_no_colon hs)]
    rw [parseParts_digit_blocks (by
      intro p hp
      rcases List.mem_cons.mp hp with h1 | h1
      · rw [h1]; exact ⟨(pad2_spec hh).2.1, (pad2_spec hh).2.2⟩
      rcases List.mem_cons.mp h1 with h2 | h2
      · rw [h2]; exact ⟨(pad2_spec hm).2.1, (pad2_spec hm).2.2⟩
      rcases List.mem_cons.mp h2 with h3 | h3
      · rw [h3]; exact ⟨(pad2_spec hs).2.1, (pad2_spec hs).2.2⟩
      · simp at h3)]
    show some _ = some ((t : ℚ))
    congr 1
    have harith : 3600 * (t / 3600) + 60 * (t % 3600 / 60) + t % 60 = t := by
      omega
    have cH : ((digitsVal (pad2 (t / 3600)) : ℚ)) = ((t / 3600 : ℤ) : ℚ) := by
      exact_mod_cast congrArg (fun z => ((z : ℤ) : ℚ)) eH
    have cM : ((digitsVal (pad2 (t % 3600 / 60)) : ℚ)) =
        ((t % 3600 / 60 : ℤ) : ℚ) := by
      exact_mod_cast congrArg (fun z => ((z : ℤ) : ℚ)) eM
    have cS : ((digitsVal (pad2 (t % 60)) : ℚ)) = ((t % 60 : ℤ) : ℚ) := by
      exact_mod_cast congrArg (fun z => ((z : ℤ) : ℚ)) eS
    simp only [List.map]
    show (digitsVal (pad2 (t / 3600)) : ℚ) * 3600 +
        (digitsVal (pad2 (t % 3600 / 60)) : ℚ) * 60 +
        (digitsVal (pad2 (t % 60)) : ℚ) = (t : ℚ)
    rw [cH, cM, cS]
    have : ((3600 * (t / 3600) + 60 * (t % 3600 / 60) + t % 60 : ℤ) : ℚ)
        = ((t : ℤ) : ℚ) := by exact_mod_cast congrArg (fun z => ((z : ℤ) : ℚ)) harith
    push_cast at this ⊢
    linarith
  · rw [splitOnChar_append _ (pad2_no_colon hm),
      splitOnChar_no_sep (pad2_no_colon hs)]
    rw [parseParts_digit_blocks (by
      intro p hp
      rcases List.mem_cons.mp hp with h1 | h1
      · rw [h1]; exact ⟨(pad2_spec hm).2.1, (pad2_spec hm).2.2⟩
      rcases List.mem_cons.mp h1 with h2 | h2
      · rw [h2]; exact ⟨(pad2_spec hs).2.1, (pad2_spec hs).2.2⟩
      · simp at h2)]
    show some _ = some ((t : ℚ))
    congr 1
    have harith : 60 * (t % 3600 / 60) + t % 60 = t := by
      omega
    have cM : ((digitsVal (pad2 (t % 3600 / 60)) : ℚ)) =
        ((t % 3600 / 60 : ℤ) : ℚ) := by
      exact_mod_cast congrArg (fun z => ((z : ℤ) : ℚ)) eM
    have cS : ((digitsVal (pad2 (t % 60)) : ℚ)) = ((t % 60 : ℤ) : ℚ) := by
      exact_mod_cast congrArg (fun z => ((z : ℤ) : ℚ)) eS
    simp only [List.map]
    show (digitsVal (pad2 (t % 3600 / 60)) : ℚ) * 60 +
        (digitsVal (pad2 (t % 60)) : ℚ) = (t : ℚ)
    rw [cM, cS]
    have : ((60 * (t % 3600 / 60) + t % 60 : ℤ) : ℚ) = ((t : ℤ) : ℚ) := by
      exact_mod_cast congrArg (fun z => ((z : ℤ) : ℚ)) harith
    push_cast at this ⊢
    linarith

lemma data_mk (cs : List Char) : (String.mk cs).data = cs := rfl

lemma roundtrip_format_parse {q : ℚ} (h : 0 ≤ q) :
    parse_timecode (format_timestamp q) = some ((pyRound q : ℤ) : ℚ) := by
  unfold parse_timecode format_timestamp
  rw [data_mk]
  exact parse_timecode_chars_formatTotal (pyRound_nonneg h)

/-! ### Loop lemmas for boundary index selection -/

lemma findFirstAux_nil (p : Segment → Bool) (i : ℕ) : findFirstAux p i [] = none := rfl

lemma findFirstAux_cons (p : Segment → Bool) (i : ℕ) (seg : Segment) (rest : List Segment) :
    findFirstAux p i (seg :: rest) =
      if p seg then some i else findFirstAux p (i + 1) rest := rfl

lemma findFirstAux_none {p : Segment → Bool} {l : List Segment}
    (h : ∀ seg ∈ l, p seg = false) (i : ℕ) : findFirstAux p i l = none := by
  induction l generalizing i with
  | nil => rfl
  | cons seg rest ih =>
    rw [findFirstAux_cons, if_neg (by simp [h seg (List.mem_cons_self seg rest)])]
    exact ih (fun s hs => h s (List.mem_cons_of_mem seg hs)) (i + 1)

lemma findFirstAux_some {p : Segment → Bool} {l : List Segment} {i r : ℕ}
    (h : findFirstAux p i l = some r) :
    i ≤ r ∧ r - i < l.length ∧
      (∀ k, k < r - i → ∀ seg, l[k]? = some seg → p seg = false) ∧
      (∃ seg, l[r - i]? = some seg ∧ p seg = true) := by
  induction l generalizing i with
  | nil => simp [findFirstAux_nil] at h
  | cons seg rest ih =>
    rw [findFirstAux_cons] at h
    by_cases hp : p seg
    · rw [if_pos hp] at h
      have hir : i = r := Option.some.inj h
      subst hir
      refine ⟨le_rfl, by simp, ?_, ?_⟩
      · intro k hk
        omega
      · refine ⟨seg, ?_, hp⟩
        simp
    · rw [if_neg hp] at h
      obtain ⟨h1, h2, h3, h4⟩ := ih h
      refine ⟨by omega, by simp; omega, ?_, ?_⟩
      · intro k hk s hs
        rcases k with _ | k'
        · simp at hs
          rw [← hs]
          simp [hp]
        · rw [List.getElem?_cons_succ] at hs
          exact h3 k' (by omega) s hs
      · obtain ⟨s, hs1, hs2⟩ := h4
        refine ⟨s, ?_, hs2⟩
        have hri : r - i = (r - (i + 1)) + 1 := by omega
        rw [hri, List.getElem?_cons_succ]
        exact hs1

lemma findFirstAux_eq_some {p : Segment → Bool} {l : List Segment} {j : ℕ}
    (hj : ∃ seg, l[j]? = some seg ∧ p seg = true)
    (hbefore : ∀ k, k < j → ∀ seg, l[k]? = some seg → p seg = false) :
    ∀ i, findFirstAux p i l = some (i + j) := by
  induction l generalizing j with
  | nil =>
    obtain ⟨seg, hs, _⟩ := hj
    simp at hs
  | cons seg rest ih =>
    intro i
    rcases j with _ | j'
    · obtain ⟨s, hs1, hs2⟩ := hj
      simp at hs1
      rw [findFirstAux_cons, if_pos (by rw [← hs1] at hs2; exact hs2)]
      simp
    · have hfail : p seg = false := by
        have := hbefore 0 (by omega) seg (by simp)
        exact this
      rw [findFirstAux_cons, if_neg (by simp [hfail])]
      have hj' : ∃ s, rest[j']? = some s ∧ p s = true := by
        obtain ⟨s, hs1, hs2⟩ := hj
        rw [List.getElem?_cons_succ] at hs1
        exact ⟨s, hs1, hs2⟩
      have hb' : ∀ k, k < j' → ∀ s, rest[k]? = some s → p s = false := by
        intro k hk s hs
        exact hbefore (k + 1) (by omega) s (by rw [List.getElem?_cons_succ]; exact hs)
      rw [ih hj' hb' (i + 1)]
      congr 1
      omega

lemma lastLeAux_nil (es : ℚ) (i acc : ℕ) : lastLeAux es i acc [] = acc := rfl

lemma lastLeAux_cons (es : ℚ) (i acc : ℕ) (seg : Segment) (rest : List Segment) :
    lastLeAux es i acc (seg :: rest) =
      lastLeAux es (i + 1) (if seg.start ≤ es then i else acc) rest := rfl

lemma lastLeAux_all_gt {es : ℚ} {l : List Segment}
    (h : ∀ seg ∈ l, ¬(seg.start ≤ es)) : ∀ i acc, lastLeAux es i acc l = acc := by
  induction l with
  | nil => intro i acc; rfl
  | cons seg rest ih =>
    intro i acc
    rw [lastLeAux_cons, if_neg (h seg (List.mem_cons_self seg rest))]
    exact ih (fun s hs => h s (List.mem_cons_of_mem seg hs)) (i + 1) acc

lemma lastLeAux_ge_acc {es : ℚ} {l : List Segment} :
    ∀ i acc, acc ≤ i → acc ≤ lastLeAux es i acc l := by
  induction l with
  | nil => intro i acc _; exact le_rfl
  | cons seg rest ih =>
    intro i acc hai
    rw [lastLeAux_cons]
    by_cases hle : seg.start ≤ es
    · rw [if_pos hle]
      calc acc ≤ i := hai
        _ ≤ lastLeAux es (i + 1) i rest := ih (i + 1) i (by omega)
    · rw [if_neg hle]
      exact ih (i + 1) acc (by omega)

lemma lastLeAux_ge {es : ℚ} {l : List Segment} {j : ℕ} {seg : Segment}
    (hj : l[j]? = some seg) (hle : seg.start ≤ es) :
    ∀ i acc, acc ≤ i → i + j ≤ lastLeAux es i acc l := by
  induction l generalizing j with
  | nil => simp at hj
  | cons seg0 rest ih =>
    intro i acc hai
    rcases j with _ | j'
    · simp at hj
      rw [lastLeAux_cons, if_pos (by rw [hj]; exact hle)]
      have hacc : i ≤ lastLeAux es (i + 1) i rest := lastLeAux_ge_acc (i + 1) i (by omega)
      omega
    · rw [List.getElem?_cons_succ] at hj
      rw [lastLeAux_cons]
      have hres := ih hj (i + 1) (if seg0.start ≤ es then i else acc)
        (by split_ifs <;> omega)
      omega

lemma lastLeAux_last {es : ℚ} {l : List Segment} {j : ℕ} {seg : Segment}
    (hj : l[j]? = some seg) (hle : seg.start ≤ es)
    (hafter : ∀ k, j < k → ∀ s, l[k]? = some s → ¬(s.start ≤ es)) :
    ∀ i acc, lastLeAux es i acc l = i + j := by
  induction l generalizing j with
  | nil => simp at hj
  | cons seg0 rest ih =>
    intro i acc
    rcases j with _ | j'
    · simp at hj
      rw [lastLeAux_cons, if_pos (by rw [hj]; exact hle)]
      have hrest : ∀ s ∈ rest, ¬(s.start ≤ es) := by
        intro s hs
        obtain ⟨k, hk⟩ := List.get_of_mem hs
        have hk' : rest[k.1]? = some s := by
          rw [List.getElem?_eq_getElem k.2]
          simp [← hk]
        exact hafter (k.1 + 1) (by omega) s
          (by rw [List.getElem?_cons_succ]; exact hk')
      rw [lastLeAux_all_gt hrest (i + 1) i]
      omega
    · rw [List.getElem?_cons_succ] at hj
      rw [lastLeAux_cons]
      have hafter' : ∀ k, j' < k → ∀ s, rest[k]? = some s → ¬(s.start ≤ es) := by
        intro k hk s hs
        exact hafter (k + 1) (by omega) s (by rw [List.getElem?_cons_succ]; exact hs)
      rw [ih hj hafter' (i + 1) _]
      omega

lemma startAt_eq {l : List Segment} {k : ℕ} {seg : Segment} (h : l[k]? = some seg) :
    startAt l k = seg.start := by
  unfold startAt
  rw [h]

lemma exists_getElem_of_lt {l : List Segment} {k : ℕ} (h : k < l.length) :
    ∃ seg, l[k]? = some seg ∧ startAt l k = seg.start := by
  refine ⟨l[k], List.getElem?_eq_getElem h, ?_⟩
  exact startAt_eq (List.getElem?_eq_getElem h)

/-! ### Bridges from the loops to declarative index descriptions -/

lemma start_index_first {l : List Segment} {ss : ℚ} {i : ℕ}
    (h : FirstStartGe l ss i) : start_index l (some ss) = i - 1 := by
  obtain ⟨hlen, hge, hbefore⟩ := h
  unfold start_index
  dsimp only
  obtain ⟨seg, hseg, hstart⟩ := exists_getElem_of_lt hlen
  have hj : ∃ s, l[i]? = some s ∧ (decide (ss ≤ s.start)) = true :=
    ⟨seg, hseg, by simp only [decide_eq_true_eq]; rw [← hstart]; exact hge⟩
  have hb : ∀ k, k < i → ∀ s, l[k]? = some s → (decide (ss ≤ s.start)) = false := by
    intro k hk s hs
    simp only [decide_eq_false_iff_not, not_le]
    rw [← startAt_eq hs]
    exact hbefore k hk
  rw [findFirstAux_eq_some hj hb 0]
  simp

lemma start_index_all_lt {l : List Segment} {ss : ℚ}
    (h : ∀ seg ∈ l, seg.start < ss) : start_index l (some ss) = l.length - 2 := by
  unfold start_index
  dsimp only
  rw [findFirstAux_none (fun seg hs => by
    simp only [decide_eq_false_iff_not, not_le]
    exact h seg hs) 0]

lemma end_index_last {l : List Segment} {es : ℚ} {j : ℕ}
    (h : LastStartLe l es j) :
    end_index l (some es) = min (l.length - 1) (j + 1) := by
  obtain ⟨hlen, hle, hafter⟩ := h
  unfold end_index
  dsimp only
  obtain ⟨seg, hseg, hstart⟩ := exists_getElem_of_lt hlen
  have hafter' : ∀ k, j < k → ∀ s, l[k]? = some s → ¬(s.start ≤ es) := by
    intro k hk s hs
    have hklen : k < l.length := by
      by_contra hcon
      rw [List.getElem?_eq_none (by omega)] at hs
      exact Option.noConfusion hs
    rw [not_le, ← startAt_eq hs]
    exact hafter k hklen hk
  rw [lastLeAux_last hseg (by rw [← hstart]; exact hle) hafter' 0 0]
  omega

lemma end_index_all_gt {l : List Segment} {es : ℚ}
    (h : ∀ seg ∈ l, es < seg.start) : end_index l (some es) = min (l.length - 1) 1 := by
  unfold end_index
  dsimp only
  rw [lastLeAux_all_gt (fun seg hs => not_le.mpr (h seg hs)) 0 0]

lemma end_index_ge {l : List Segment} {es : ℚ} {j : ℕ} {seg : Segment}
    (hj : l[j]? = some seg) (hle : seg.start ≤ es) :
    min (l.length - 1) (j + 1) ≤ end_index l (some es) := by
  unfold end_index
  dsimp only
  have h1 : j ≤ lastLeAux es 0 0 l := by
    have := lastLeAux_ge hj hle 0 0 le_rfl
    omega
  omega

/-! ### Parsing all-digit strings -/

lemma parse_timecode_chars_digits {cs : List Char} (hne : cs ≠ [])
    (hd : ∀ c ∈ cs, isDigitChar c) :
    parse_timecode_chars cs = some ((digitsVal cs : ℚ)) := by
  unfold parse_timecode_chars
  have hstrip : pyStrip cs = cs :=
    pyStrip_eq_self fun c hc => (isDigitChar_props (hd c hc)).2.1
  rw [hstrip, if_neg hne,
    splitOnChar_no_sep fun c hc => (isDigitChar_props (hd c hc)).2.2.1,
    parseParts_digit_blocks (by
      intro p hp
      rcases List.mem_cons.mp hp with h1 | h1
      · rw [h1]; exact ⟨hne, hd⟩
      · simp at h1)]
  rfl

lemma parse_timecode_digits {s : String} (hne : s.data ≠ [])
    (hd : ∀ c ∈ s.data, isDigitChar c) :
    parse_timecode s = some ((digitsVal s.data : ℚ)) :=
  parse_timecode_chars_digits hne hd

/-! ### Concrete parsing and rendering facts used by scenario claims -/

lemma parse_three : parse_timecode "3" = some 3 := by
  rw [parse_timecode_digits (by decide) (by decide),
    show digitsVal "3".data = 3 from by decide]
  norm_num

lemma parse_twentyone : parse_timecode "21" = some 21 := by
  rw [parse_timecode_digits (by decide) (by decide),
    show digitsVal "21".data = 21 from by decide]
  norm_num

lemma parse_empty : parse_timecode "" = none := rfl

/-! ### C1: boundary selection and scenario A -/

/-- C1: for a nonempty, start-sorted segment list and bound strings parsing to
`ss` and `es`, `build_filtered_text` slices inclusively from the index one
before the first segment with `start ≥ ss` (ℕ-floored, with fallback
`len - 2` when no segment qualifies) to one past the last index with
`start ≤ es` (capped at `len - 1`); on Scenario A's three segments with
bounds `"3"`/`"21"` and mode `ts_before` it renders all three lines. -/
theorem c1_boundary_selection
    (segments : List Segment) (start_str end_str : String) (ss es : ℚ)
    (hne : segments ≠ []) (hsorted : SortedByStart segments)
    (hs : parse_timecode start_str = some ss)
    (he : parse_timecode end_str = some es) :
    (∀ i, FirstStartGe segments ss i →
        start_index segments (parse_timecode start_str) = i - 1) ∧
    ((∀ seg ∈ segments, seg.start < ss) →
        start_index segments (parse_timecode start_str) = segments.length - 2) ∧
    (∀ j, LastStartLe segments es j →
        end_index segments (parse_timecode end_str) = min (segments.length - 1) (j + 1)) ∧
    filtered_segments segments start_str end_str =
      (segments.drop (start_index segments (parse_timecode start_str))).take
        (end_index segments (parse_timecode end_str) + 1 -
          start_index segments (parse_timecode start_str)) ∧
    build_filtered_text [⟨"Hello", 0, 2⟩, ⟨"World", 5, 2⟩, ⟨"End", 20, 2⟩]
        "3" "21" "ts_before" false false none none =
      "[00:00] Hello\n[00:05] World\n[00:20] End" := by
  refine ⟨?_, ?_, ?_, rfl, ?_⟩
  · intro i hfirst
    rw [hs]
    exact start_index_first hfirst
  · intro hall
    rw [hs]
    exact start_index_all_lt hall
  · intro j hlast
    rw [he]
    exact end_index_last hlast
  · have ha : start_index [⟨"Hello", 0, 2⟩, ⟨"World", 5, 2⟩, ⟨"End", 20, 2⟩]
        (parse_timecode "3") = 0 := by
      rw [parse_three]
      have hfsg : FirstStartGe [⟨"Hello", 0, 2⟩, ⟨"World", 5, 2⟩, ⟨"End", 20, 2⟩] 3 1 := by
        refine ⟨by norm_num, ?_, ?_⟩
        · rw [startAt_eq (show _ = some (⟨"World", 5, 2⟩ : Segment) from rfl)]
          norm_num
        · intro k hk
          interval_cases k
          rw [startAt_eq (show _ = some (⟨"Hello", 0, 2⟩ : Segment) from rfl)]
          norm_num
      simpa using start_index_first hfsg
    have hb : end_index [⟨"Hello", 0, 2⟩, ⟨"World", 5, 2⟩, ⟨"End", 20, 2⟩]
        (parse_timecode "21") = 2 := by
      rw [parse_twentyone]
      have hlsl : LastStartLe [⟨"Hello", 0, 2⟩, ⟨"World", 5, 2⟩, ⟨"End", 20, 2⟩] 21 2 := by
        refine ⟨by norm_num, ?_, ?_⟩
        · rw [startAt_eq (show _ = some (⟨"End", 20, 2⟩ : Segment) from rfl)]
          norm_num
        · intro k hklen hk
          simp only [List.length_cons, List.length_nil] at hklen
          omega
      simpa using end_index_last hlsl
    have hfil : filtered_segments [⟨"Hello", 0, 2⟩, ⟨"World", 5, 2⟩, ⟨"End", 20, 2⟩]
        "3" "21" = [⟨"Hello", 0, 2⟩, ⟨"World", 5, 2⟩, ⟨"End", 20, 2⟩] := by
      unfold filtered_segments
      rw [ha, hb]
      rfl
    have hr1 : render_segment "ts_before" ⟨"Hello", 0, 2⟩ = "[00:00] Hello".data := by
      unfold render_segment
      rw [show pyRound (0:ℚ) = 0 by
        rw [show (0:ℚ) = ((0:ℤ):ℚ) by norm_num, pyRound_intCast]]
      decide
    have hr2 : render_segment "ts_before" ⟨"World", 5, 2⟩ = "[00:05] World".data := by
      unfold render_segment
      rw [show pyRound (5:ℚ) = 5 by
        rw [show (5:ℚ) = ((5:ℤ):ℚ) by norm_num, pyRound_intCast]]
      decide
    have hr3 : render_segment "ts_before" ⟨"End", 20, 2⟩ = "[00:20] End".data := by
      unfold render_segment
      rw [show pyRound (20:ℚ) = 20 by
        rw [show (20:ℚ) = ((20:ℤ):ℚ) by norm_num, pyRound_intCast]]
      decide
    simp only [build_filtered_text, hfil, hr1, hr2, hr3, List.map]
    decide

/-- Witness for C1: the boundary characterizations and Scenario A evaluated on
the concrete three-segment list. -/
theorem c1_boundary_selection_witness :
    start_index [⟨"Hello", 0, 2⟩, ⟨"World", 5, 2⟩, ⟨"End", 20, 2⟩]
      (parse_timecode "3") = 0 ∧
    end_index [⟨"Hello", 0, 2⟩, ⟨"World", 5, 2⟩, ⟨"End", 20, 2⟩]
      (parse_timecode "21") = 2 ∧
    build_filtered_text [⟨"Hello", 0, 2⟩, ⟨"World", 5, 2⟩, ⟨"End", 20, 2⟩]
      "3" "21" "ts_before" false false none none =
      "[00:00] Hello\n[00:05] World\n[00:20] End" := by
  have hsorted : SortedByStart [⟨"Hello", 0, 2⟩, ⟨"World", 5, 2⟩, ⟨"End", 20, 2⟩] := by
    unfold SortedByStart
    simp only [List.pairwise_cons, List.mem_cons, List.not_mem_nil, or_false]
    refine ⟨?_, ?_, ?_⟩
    · rintro s (rfl | rfl) <;> norm_num
    · rintro s rfl
      norm_num
    · exact ⟨fun s hs => absurd hs (by simp), List.Pairwise.nil⟩
  have h := c1_boundary_selection
    [⟨"Hello", 0, 2⟩, ⟨"World", 5, 2⟩, ⟨"End", 20, 2⟩] "3" "21" 3 21
    (by simp) hsorted parse_three parse_twentyone
  refine ⟨?_, ?_, h.2.2.2.2⟩
  · have hfsg : FirstStartGe [⟨"Hello", 0, 2⟩, ⟨"World", 5, 2⟩, ⟨"End", 20, 2⟩] 3 1 := by
      refine ⟨by norm_num, ?_, ?_⟩
      · rw [startAt_eq (show _ = some (⟨"World", 5, 2⟩ : Segment) from rfl)]
        norm_num
      · intro k hk
        interval_cases k
        rw [startAt_eq (show _ = some (⟨"Hello", 0, 2⟩ : Segment) from rfl)]
        norm_num
    simpa using h.1 1 hfsg
  · have hlsl : LastStartLe [⟨"Hello", 0, 2⟩, ⟨"World", 5, 2⟩, ⟨"End", 20, 2⟩] 21 2 := by
      refine ⟨by norm_num, ?_, ?_⟩
      · rw [startAt_eq (show _ = some (⟨"End", 20, 2⟩ : Segment) from rfl)]
        norm_num
      · intro k hklen hk
        simp only [List.length_cons, List.length_nil] at hklen
        omega
    simpa using h.2.2.1 2 hlsl

/-! ### C7: empty segment list -/

/-- C7: on the empty segment list `build_filtered_text` returns `""` for every
combination of bounds, display mode, header flags, title and description. -/
theorem c7_empty_segments (start_str end_str display_mode : String)
    (include_title include_description : Bool)
    (video_title video_description : Option String) :
    build_filtered_text [] start_str end_str display_mode include_title
      include_description video_title video_description = "" := by
  unfold build_filtered_text
  rw [if_pos rfl]

/-! ### C10: end bound below every segment -/

/-- C10: when the parsed end bound lies strictly below every segment start, the
tracked last index stays 0, so the chosen end index is `min (len-1) 1`; with an
unset start bound the slice covers the first segment, the first two when at
least two exist, and is never empty. -/
theorem c10_end_before_all (segments : List Segment) (end_str : String) (es : ℚ)
    (hne : segments ≠ [])
    (he : parse_timecode end_str = some es)
    (hlt : ∀ seg ∈ segments, es < seg.start) :
    end_index segments (parse_timecode end_str) = min (segments.length - 1) 1 ∧
    (2 ≤ segments.length → filtered_segments segments "" end_str = segments.take 2) ∧
    (segments.length = 1 → filtered_segments segments "" end_str = segments) ∧
    filtered_segments segments "" end_str ≠ [] := by
  have hlen : 1 ≤ segments.length := by
    rcases segments with _ | ⟨s, rest⟩
    · exact absurd rfl hne
    · simp
  have hb : end_index segments (some es) = min (segments.length - 1) 1 :=
    end_index_all_gt hlt
  have hfil : filtered_segments segments "" end_str =
      segments.take (min (segments.length - 1) 1 + 1) := by
    unfold filtered_segments
    rw [parse_empty, he]
    dsimp only [start_index]
    rw [hb, List.drop_zero, Nat.sub_zero]
  refine ⟨by rw [he]; exact hb, ?_, ?_, ?_⟩
  · intro h2
    rw [hfil]
    congr 1
    omega
  · intro h1
    rw [hfil, show min (segments.length - 1) 1 + 1 = 1 by omega]
    exact List.take_of_length_le (by omega)
  · rw [hfil]
    intro hcon
    have hlen2 := congrArg List.length hcon
    rw [List.length_take] at hlen2
    simp only [List.length_nil] at hlen2
    omega

/-- Witness for C10 on two concrete segments with end bound `"1"`. -/
theorem c10_end_before_all_witness :
    end_index [⟨"a", 5, 1⟩, ⟨"b", 9, 1⟩] (parse_timecode "1") = 1 ∧
    filtered_segments [⟨"a", 5, 1⟩, ⟨"b", 9, 1⟩] "" "1" = [⟨"a", 5, 1⟩, ⟨"b", 9, 1⟩] ∧
    filtered_segments [⟨"a", 5, 1⟩, ⟨"b", 9, 1⟩] "" "1" ≠ [] := by
  have hp1 : parse_timecode "1" = some 1 := by
    rw [parse_timecode_digits (by decide) (by decide),
      show digitsVal "1".data = 1 from by decide]
    norm_num
  have h := c10_end_before_all [⟨"a", 5, 1⟩, ⟨"b", 9, 1⟩] "1" 1 (by simp) hp1
    (by
      intro s hs
      rcases List.mem_cons.mp hs with rfl | hs2
      · norm_num
      rcases List.mem_cons.mp hs2 with rfl | hs3
      · norm_num
      · simp at hs3)
  refine ⟨by simpa using h.1, ?_, h.2.2.2⟩
  have h2 := h.2.1 (by simp)
  simpa using h2

/-! ### C5: duration inference (corrected) -/

/-- C5 counterexample: with `video_length = some 0` (present but not positive)
and a single segment ending at 105, `get_video_duration` returns the stored 0,
not the inferred 105 the claim requires for a nonpositive stored length. -/
theorem c5_counterexample :
    get_video_duration ⟨[⟨"a", 100, 5⟩], none, none, "", some 0, none⟩ = some 0 ∧
    get_video_duration ⟨[⟨"a", 100, 5⟩], none, none, "", some 0, none⟩ ≠ some 105 := by
  refine ⟨rfl, ?_⟩
  intro h
  rw [show get_video_duration ⟨[⟨"a", 100, 5⟩], none, none, "", some 0, none⟩
    = some 0 from rfl] at h
  have h0 := Option.some.inj h
  norm_num at h0

/-- C5 (amended): `get_video_duration` returns `video_length` whenever it is
present, regardless of sign; only when it is absent does it fall back to the
last segment's end, and to nothing when no segments exist either. -/
theorem c5_video_duration (state : AppState) :
    (∀ v, state.video_length = some v → get_video_duration state = some v) ∧
    (state.video_length = none →
      ∀ last, state.full_segments.getLast? = some last →
        get_video_duration state = some (last.start + last.duration)) ∧
    (state.video_length = none → state.full_segments = [] →
      get_video_duration state = none) := by
  unfold get_video_duration
  refine ⟨?_, ?_, ?_⟩
  · intro v hv
    rw [hv]
  · intro hn last hl
    rw [hn, hl]
  · intro hn he
    rw [hn, he]
    rfl

/-- Witness for C5 (amended) at three concrete states. -/
theorem c5_video_duration_witness :
    get_video_duration ⟨[], none, none, "", some 7, none⟩ = some 7 ∧
    get_video_duration ⟨[⟨"a", 100, 5⟩], none, none, "", none, none⟩ = some 105 ∧
    get_video_duration ⟨[], none, none, "", none, none⟩ = none := by
  refine ⟨(c5_video_duration _).1 7 rfl, ?_, (c5_video_duration _).2.2 rfl rfl⟩
  have h := (c5_video_duration ⟨[⟨"a", 100, 5⟩], none, none, "", none, none⟩).2.1
    rfl ⟨"a", 100, 5⟩ rfl
  rw [h]
  norm_num

/-! ### C9: export error precedence -/

/-- C9: `export_file` rejects empty text with "Nothing to export" before the
format is inspected, and reports "Unknown export type" exactly for non-empty
text with a format outside txt, csv, docx, pdf. -/
theorem c9_export_order (text filename fmt : String) :
    (text = "" → export_file text filename fmt = .httpError "Nothing to export") ∧
    (export_file text filename fmt = .httpError "Unknown export type" ↔
      text ≠ "" ∧ fmt ∉ (["txt", "csv", "docx", "pdf"] : List String)) := by
  unfold export_file
  constructor
  · intro h
    rw [if_pos h]
  · constructor
    · intro h
      by_cases ht : text = ""
      · rw [if_pos ht] at h
        have := ExportOutcome.httpError.inj h
        exact absurd this (by decide)
      · rw [if_neg ht] at h
        refine ⟨ht, ?_⟩
        intro hmem
        simp only [List.mem_cons, List.not_mem_nil, or_false] at hmem
        rcases hmem with h1 | h1 | h1 | h1 <;> rw [h1] at h <;> simp at h
    · rintro ⟨ht, hf⟩
      rw [if_neg ht]
      have h1 : fmt ≠ "txt" := fun hc => hf (by rw [hc]; simp)
      have h2 : fmt ≠ "csv" := fun hc => hf (by rw [hc]; simp)
      have h3 : fmt ≠ "docx" := fun hc => hf (by rw [hc]; simp)
      have h4 : fmt ≠ "pdf" := fun hc => hf (by rw [hc]; simp)
      rw [if_neg h1, if_neg h2, if_neg h3, if_neg h4]

/-- Witness for C9: empty text wins over an unknown format, and an unknown
format on non-empty text reports the unknown-type error. -/
theorem c9_export_order_witness :
    export_file "" "f" "xml" = .httpError "Nothing to export" ∧
    export_file "hi" "f" "xml" = .httpError "Unknown export type" := by
  refine ⟨(c9_export_order "" "f" "xml").1 rfl, ?_⟩
  exact (c9_export_order "hi" "f" "xml").2.mpr ⟨by decide, by decide⟩

/-! ### C3: integer round trip -/

/-- C3: for every natural number x, formatting x seconds (zero-padded `mm:ss`,
or `hh:mm:ss` when the hour field is positive) and parsing the result returns
exactly x. -/
theorem c3_roundtrip (x : ℕ) :
    parse_timecode (format_timestamp ((x : ℚ))) = some ((x : ℚ)) := by
  have h := roundtrip_format_parse (show (0:ℚ) ≤ ((x : ℕ) : ℚ) by positivity)
  rw [h, pyRound_natCast]
  norm_num

/-- Witness for C3 at x = 3661 (`"01:01:01"`). -/
theorem c3_roundtrip_witness :
    parse_timecode (format_timestamp ((3661 : ℕ) : ℚ)) = some (((3661 : ℕ) : ℚ)) :=
  c3_roundtrip 3661

/-! ### validate_time_range characterization -/

lemma parse_timecode_chars_strip (cs : List Char) :
    parse_timecode_chars (pyStrip cs) = parse_timecode_chars cs := by
  unfold parse_timecode_chars
  rw [pyStrip_idem]

lemma resolve_bounds_eq (d : ℚ) (rs re : List Char) :
    resolve_bounds d rs re =
      match (if rs = [] then some (0:ℚ) else parse_timecode_chars rs) with
      | none => .error .InvalidStartFormat
      | some s0 =>
        match (if re = [] then some d else parse_timecode_chars re) with
        | none => .error .InvalidEndFormat
        | some e0 => .ok (s0, e0) := by
  unfold resolve_bounds
  by_cases h1 : rs = [] <;> by_cases h2 : re = []
  · simp [h1, h2]
  · subst h1
    rcases hp : parse_timecode_chars re with _ | v <;> simp [h2, hp]
  · subst h2
    rcases hp : parse_timecode_chars rs with _ | v <;> simp [h1, hp]
  · rcases hp : parse_timecode_chars rs with _ | v <;>
      rcases hq : parse_timecode_chars re with _ | w <;> simp [h1, h2, hp, hq]

lemma validate_eq (ss es : String) (vl : Option ℚ) (segs : List Segment) :
    validate_time_range ss es vl segs =
      match inferred_duration vl segs with
      | none => .error .NoTranscriptLoaded
      | some d =>
        match (if pyStrip ss.data = [] then some (0:ℚ) else parse_timecode ss) with
        | none => .error .InvalidStartFormat
        | some s0 =>
          match (if pyStrip es.data = [] then some d else parse_timecode es) with
          | none => .error .InvalidEndFormat
          | some e0 =>
            if max 0 (min e0 d) ≤ max 0 (min s0 d) then .error .EndNotAfterStart
            else .ok (format_timestamp (max 0 (min s0 d)),
              format_timestamp (max 0 (min e0 d))) := by
  unfold validate_time_range
  rcases hd : inferred_duration vl segs with _ | d
  · rfl
  · dsimp only
    rw [resolve_bounds_eq]
    unfold parse_timecode
    rw [← parse_timecode_chars_strip ss.data, ← parse_timecode_chars_strip es.data]
    rcases hs0 : (if pyStrip ss.data = [] then some (0:ℚ)
        else parse_timecode_chars (pyStrip ss.data)) with _ | s0
    · rfl
    · rcases he0 : (if pyStrip es.data = [] then some d
          else parse_timecode_chars (pyStrip es.data)) with _ | e0 <;> rfl

lemma inferred_duration_none_iff (vl : Option ℚ) (segs : List Segment) :
    inferred_duration vl segs = none ↔ duration_missing vl segs := by
  unfold inferred_duration duration_missing
  rcases vl with _ | d
  · rcases hg : segs.getLast? with _ | last
    · have hseg : segs = [] := List.getLast?_eq_none_iff.mp hg
      simp [hseg]
    · have hseg : segs ≠ [] := by
        intro h
        rw [h] at hg
        simp at hg
      simp [hg, hseg]
  · dsimp only
    by_cases hd0 : d ≤ 0
    · rw [if_pos hd0]
      rcases hg : segs.getLast? with _ | last
      · have hseg : segs = [] := List.getLast?_eq_none_iff.mp hg
        simp [hseg, hd0]
      · have hseg : segs ≠ [] := by
          intro h
          rw [h] at hg
          simp at hg
        simp [hg, hseg]
    · rw [if_neg hd0]
      simp [hd0]

lemma startRes_none_iff (s : String) :
    (if pyStrip s.data = [] then some (0:ℚ) else parse_timecode s) = none ↔
      bad_time s := by
  unfold bad_time
  by_cases h : pyStrip s.data = []
  · rw [if_pos h]
    simp [h]
  · rw [if_neg h]
    simp [h]

lemma startRes_good (s : String) (h : ¬bad_time s) :
    (if pyStrip s.data = [] then some (0:ℚ) else parse_timecode s) =
      some (resolved_start s) := by
  unfold bad_time at h
  unfold resolved_start
  by_cases he : pyStrip s.data = []
  · rw [if_pos he]
    have hp : parse_timecode s = none := by
      unfold parse_timecode parse_timecode_chars
      rw [if_pos he]
    rw [hp]
    rfl
  · rw [if_neg he]
    push_neg at h
    rcases hp : parse_timecode s with _ | v
    · exact absurd hp (h he)
    · rfl

lemma endRes_none_iff (s : String) (d : ℚ) :
    (if pyStrip s.data = [] then some d else parse_timecode s) = none ↔
      bad_time s := by
  unfold bad_time
  by_cases h : pyStrip s.data = []
  · rw [if_pos h]
    simp [h]
  · rw [if_neg h]
    simp [h]

lemma endRes_good (s : String) (d : ℚ) (h : ¬bad_time s) :
    (if pyStrip s.data = [] then some d else parse_timecode s) =
      some (resolved_end s d) := by
  unfold bad_time at h
  unfold resolved_end
  by_cases he : pyStrip s.data = []
  · rw [if_pos he]
    have hp : parse_timecode s = none := by
      unfold parse_timecode parse_timecode_chars
      rw [if_pos he]
    rw [hp]
    rfl
  · rw [if_neg he]
    push_neg at h
    rcases hp : parse_timecode s with _ | v
    · exact absurd hp (h he)
    · rfl

/-- C6: `validate_time_range` fails with `NoTranscriptLoaded` iff the duration
is unknown or nonpositive with no segments; otherwise with
`InvalidStartFormat` (resp. `InvalidEndFormat`) iff the nonempty start (resp.
end) string does not parse, start checked first; otherwise with
`EndNotAfterStart` iff the clamped end is at most the clamped start; and it
succeeds in every remaining case. -/
theorem c6_validate_errors (ss es : String) (vl : Option ℚ) (segs : List Segment) :
    (validate_time_range ss es vl segs = .error .NoTranscriptLoaded ↔
      duration_missing vl segs) ∧
    (validate_time_range ss es vl segs = .error .InvalidStartFormat ↔
      ¬duration_missing vl segs ∧ bad_time ss) ∧
    (validate_time_range ss es vl segs = .error .InvalidEndFormat ↔
      ¬duration_missing vl segs ∧ ¬bad_time ss ∧ bad_time es) ∧
    (validate_time_range ss es vl segs = .error .EndNotAfterStart ↔
      ∃ d, inferred_duration vl segs = some d ∧ ¬bad_time ss ∧ ¬bad_time es ∧
        clampTo d (resolved_end es d) ≤ clampTo d (resolved_start ss)) ∧
    ((∃ p, validate_time_range ss es vl segs = .ok p) ↔
      ∃ d, inferred_duration vl segs = some d ∧ ¬bad_time ss ∧ ¬bad_time es ∧
        clampTo d (resolved_start ss) < clampTo d (resolved_end es d)) := by
  rw [validate_eq]
  rcases hd : inferred_duration vl segs with _ | d
  · have hdm : duration_missing vl segs := (inferred_duration_none_iff vl segs).mp hd
    refine ⟨by simp [hdm], by simp [hdm], by simp [hdm], by simp, by simp⟩
  · have hndm : ¬duration_missing vl segs := by
      rw [← inferred_duration_none_iff, hd]
      simp
    dsimp only
    by_cases hbs : bad_time ss
    · rw [(startRes_none_iff ss).mpr hbs]
      refine ⟨by simp [hndm], by simp [hndm, hbs], by simp [hbs], ?_, ?_⟩
      · constructor
        · intro h
          exact absurd (Except.error.inj h) (by decide)
        · rintro ⟨d', _, hgood, _, _⟩
          exact absurd hbs hgood
      · constructor
        · rintro ⟨p, hp⟩
          exact Except.noConfusion hp
        · rintro ⟨d', _, hgood, _, _⟩
          exact absurd hbs hgood
    · rw [startRes_good ss hbs]
      dsimp only
      by_cases hbe : bad_time es
      · rw [(endRes_none_iff es d).mpr hbe]
        refine ⟨by simp [hndm], by simp [hbs], by simp [hndm, hbs, hbe], ?_, ?_⟩
        · constructor
          · intro h
            exact absurd (Except.error.inj h) (by decide)
          · rintro ⟨d', _, _, hgood, _⟩
            exact absurd hbe hgood
        · constructor
          · rintro ⟨p, hp⟩
            exact Except.noConfusion hp
          · rintro ⟨d', _, _, hgood, _⟩
            exact absurd hbe hgood
      · rw [endRes_good es d hbe]
        dsimp only
        by_cases hc : clampTo d (resolved_end es d) ≤ clampTo d (resolved_start ss)
        · rw [if_pos (by unfold clampTo at hc; exact hc)]
          refine ⟨by simp [hndm], by simp [hbs], by simp [hbe], ?_, ?_⟩
          · constructor
            · intro _
              exact ⟨d, rfl, hbs, hbe, hc⟩
            · intro _
              rfl
          · constructor
            · rintro ⟨p, hp⟩
              exact Except.noConfusion hp
            · rintro ⟨d', hd', _, _, hlt⟩
              have hdd : d = d' := Option.some.inj hd'
              subst hdd
              exact absurd hlt (not_lt.mpr hc)
        · rw [if_neg (by unfold clampTo at hc; exact hc)]
          refine ⟨by simp [hndm], by simp [hbs], by simp [hbe], ?_, ?_⟩
          · constructor
            · intro h
              exact Except.noConfusion h
            · rintro ⟨d', hd', _, _, hle⟩
              have hdd : d = d' := Option.some.inj hd'
              subst hdd
              exact absurd hle hc
          · constructor
            · intro _
              exact ⟨d, rfl, hbs, hbe, not_le.mp hc⟩
            · intro _
              exact ⟨_, rfl⟩

lemma findFirstAux_eq_none {p : Segment → Bool} {l : List Segment} {i : ℕ}
    (h : findFirstAux p i l = none) : ∀ seg ∈ l, p seg = false := by
  induction l generalizing i with
  | nil => intro seg hs; simp at hs
  | cons seg0 rest ih =>
    intro seg hs
    rw [findFirstAux_cons] at h
    by_cases hp : p seg0
    · rw [if_pos hp] at h
      exact Option.noConfusion h
    · rw [if_neg hp] at h
      rcases List.mem_cons.mp hs with rfl | hs2
      · simpa using hp
      · exact ih h seg hs2

lemma drop_take_ne_nil {l : List Segment} {a n : ℕ} (ha : a < l.length) (hn : 1 ≤ n) :
    (l.drop a).take n ≠ [] := by
  intro hcon
  have hlen := congrArg List.length hcon
  rw [List.length_take, List.length_drop, List.length_nil] at hlen
  omega

lemma filtered_nonempty {segments : List Segment} {a b : ℚ} (hne : segments ≠ [])
    (hab : a ≤ b) :
    (segments.drop (start_index segments (some a))).take
      (end_index segments (some b) + 1 - start_index segments (some a)) ≠ [] := by
  have hlen : 1 ≤ segments.length := List.length_pos.mpr hne
  unfold start_index
  dsimp only
  rcases hf : findFirstAux (fun seg => decide (a ≤ seg.start)) 0 segments with _ | i
  all_goals dsimp only
  · have hall : ∀ seg ∈ segments, seg.start < a := by
      intro seg hs
      have := findFirstAux_eq_none hf seg hs
      simpa using this
    obtain ⟨last, hlast, hlaststart⟩ := exists_getElem_of_lt
      (show segments.length - 1 < segments.length by omega)
    have hlastle : last.start ≤ b := by
      have h1 : last.start < a := hall last (by
        have := List.getElem?_eq_some.mp hlast
        obtain ⟨hlt, heq⟩ := this
        rw [← heq]
        exact List.getElem_mem hlt)
      linarith
    have hb := end_index_ge hlast hlastle
    apply drop_take_ne_nil
    · omega
    · have : min (segments.length - 1) (segments.length - 1 + 1) =
          segments.length - 1 := by omega
      rw [this] at hb
      omega
  · obtain ⟨_, hilen, hbefore, hsat⟩ := findFirstAux_some hf
    simp only [Nat.sub_zero] at hilen hbefore hsat
    rcases i with _ | i'
    · apply drop_take_ne_nil
      · omega
      · omega
    · have hprev : ∃ seg, segments[i']? = some seg ∧ seg.start ≤ b := by
        obtain ⟨seg, hseg, hstart⟩ := exists_getElem_of_lt
          (show i' < segments.length by omega)
        refine ⟨seg, hseg, ?_⟩
        have := hbefore i' (by omega) seg hseg
        simp only [decide_eq_false_iff_not, not_le] at this
        linarith
      obtain ⟨seg, hseg, hsegle⟩ := hprev
      have hb := end_index_ge hseg hsegle
      apply drop_take_ne_nil
      · omega
      · have hmin : i' + 1 - 1 ≤ min (segments.length - 1) (i' + 1) := by omega
        omega

lemma validate_ok_inv {rs re : String} {vl : Option ℚ} {segments : List Segment}
    {s1 e1 : String}
    (hok : validate_time_range rs re vl segments = .ok (s1, e1)) :
    ∃ d A B, inferred_duration vl segments = some d ∧ 0 < d ∧
      s1 = format_timestamp A ∧ e1 = format_timestamp B ∧
      A < B ∧ 0 ≤ A ∧ A ≤ d ∧ 0 ≤ B ∧ B ≤ d := by
  rw [validate_eq] at hok
  rcases hd : inferred_duration vl segments with _ | d <;> rw [hd] at hok
  · exact Except.noConfusion hok
  · dsimp only at hok
    rcases hs0 : (if pyStrip rs.data = [] then some (0:ℚ) else parse_timecode rs)
      with _ | s0 <;> rw [hs0] at hok
    · exact Except.noConfusion hok
    · dsimp only at hok
      rcases he0 : (if pyStrip re.data = [] then some d else parse_timecode re)
        with _ | e0 <;> rw [he0] at hok
      · exact Except.noConfusion hok
      · dsimp only at hok
        by_cases hc : max 0 (min e0 d) ≤ max 0 (min s0 d)
        · rw [if_pos hc] at hok
          exact Except.noConfusion hok
        · rw [if_neg hc] at hok
          have hpair := Except.ok.inj hok
          have hs1 : format_timestamp (max 0 (min s0 d)) = s1 :=
            congrArg Prod.fst hpair
          have he1 : format_timestamp (max 0 (min e0 d)) = e1 :=
            congrArg Prod.snd hpair
          have hdpos : 0 < d := by
            by_contra hdn
            push_neg at hdn
            have hA : max 0 (min s0 d) = max 0 (min e0 d) := by
              have h1 : min s0 d ≤ 0 := le_trans (min_le_right _ _) hdn
              have h2 : min e0 d ≤ 0 := le_trans (min_le_right _ _) hdn
              rw [max_eq_left h1, max_eq_left h2]
            exact hc (le_of_eq (hA ▸ rfl))
          refine ⟨d, max 0 (min s0 d), max 0 (min e0 d), rfl, hdpos,
            hs1.symm, he1.symm, not_le.mp hc, le_max_left 0 _, ?_, le_max_left 0 _, ?_⟩
          · exact max_le (le_of_lt hdpos) (min_le_right _ _)
          · exact max_le (le_of_lt hdpos) (min_le_right _ _)

/-- C2: for a nonempty, start-sorted segment list, whenever
`validate_time_range` succeeds and returns normalized bound strings, the
segment slice `build_filtered_text` selects for those strings is non-empty. -/
theorem c2_nonempty_slice (segments : List Segment) (rs re : String)
    (vl : Option ℚ) (s1 e1 : String)
    (hne : segments ≠ []) (hsorted : SortedByStart segments)
    (hok : validate_time_range rs re vl segments = .ok (s1, e1)) :
    filtered_segments segments s1 e1 ≠ [] := by
  obtain ⟨d, A, B, _, _, hs1, he1, hAB, hA0, _, hB0, _⟩ := validate_ok_inv hok
  have hps1 : parse_timecode s1 = some ((pyRound A : ℤ) : ℚ) := by
    rw [hs1]
    exact roundtrip_format_parse hA0
  have hpe1 : parse_timecode e1 = some ((pyRound B : ℤ) : ℚ) := by
    rw [he1]
    exact roundtrip_format_parse hB0
  have hmono : ((pyRound A : ℤ) : ℚ) ≤ ((pyRound B : ℤ) : ℚ) := by
    exact_mod_cast pyRound_mono (le_of_lt hAB)
  unfold filtered_segments
  rw [hps1, hpe1]
  exact filtered_nonempty hne hmono

/-- C4 (amended): whenever `validate_time_range` succeeds and its two output
strings are distinct, feeding them back in with the same `video_length` and
segments succeeds and returns the same pair.  (Distinctness is necessary:
rounding to whole seconds can collapse a valid fractional range onto a single
timestamp, and the collapsed pair is then rejected; see the counterexample.) -/
theorem c4_normalize_idempotent (rs re : String) (vl : Option ℚ)
    (segments : List Segment) (s1 e1 : String)
    (hok : validate_time_range rs re vl segments = .ok (s1, e1))
    (hne : s1 ≠ e1) :
    validate_time_range s1 e1 vl segments = .ok (s1, e1) := by
  obtain ⟨d, A, B, hd, hdpos, hs1, he1, hAB, hA0, hAd, hB0, hBd⟩ := validate_ok_inv hok
  have ha0 : 0 ≤ pyRound A := pyRound_nonneg hA0
  have hab : pyRound A ≤ pyRound B := pyRound_mono (le_of_lt hAB)
  have hne' : pyRound A ≠ pyRound B := by
    intro hcon
    apply hne
    rw [hs1, he1]
    unfold format_timestamp
    rw [hcon]
  have hab' : pyRound A < pyRound B := lt_of_le_of_ne hab hne'
  have hps1 : parse_timecode s1 = some ((pyRound A : ℤ) : ℚ) := by
    rw [hs1]
    exact roundtrip_format_parse hA0
  have hpe1 : parse_timecode e1 = some ((pyRound B : ℤ) : ℚ) := by
    rw [he1]
    exact roundtrip_format_parse hB0
  have hstrip1 : pyStrip s1.data ≠ [] := by
    rw [hs1]
    unfold format_timestamp
    rw [data_mk, pyStrip_eq_self (formatTotal_no_space ha0)]
    exact formatTotal_ne_nil _
  have hstrip2 : pyStrip e1.data ≠ [] := by
    rw [he1]
    unfold format_timestamp
    rw [data_mk, pyStrip_eq_self (formatTotal_no_space (le_trans ha0 hab))]
    exact formatTotal_ne_nil _
  have hbQ : ((pyRound B : ℤ) : ℚ) ≤ B + 1/2 := pyRound_le B
  have haltd : ((pyRound A : ℤ) : ℚ) < d := by
    have h1 : pyRound A + 1 ≤ pyRound B := Int.add_one_le_iff.mpr hab'
    have h2 : ((pyRound A : ℤ) : ℚ) + 1 ≤ ((pyRound B : ℤ) : ℚ) := by
      exact_mod_cast h1
    linarith
  rw [validate_eq, hd]
  dsimp only
  rw [if_neg hstrip1, hps1]
  dsimp only
  rw [if_neg hstrip2, hpe1]
  dsimp only
  have hA' : max 0 (min (((pyRound A : ℤ) : ℚ)) d) = ((pyRound A : ℤ) : ℚ) := by
    rw [min_eq_left (le_of_lt haltd), max_eq_right (by exact_mod_cast ha0)]
  by_cases hbd : ((pyRound B : ℤ) : ℚ) ≤ d
  · have hB' : max 0 (min (((pyRound B : ℤ) : ℚ)) d) = ((pyRound B : ℤ) : ℚ) := by
      rw [min_eq_left hbd, max_eq_right (by exact_mod_cast le_trans ha0 hab)]
    rw [hA', hB']
    rw [if_neg (by exact_mod_cast not_le.mpr hab')]
    rw [hs1, he1]
    unfold format_timestamp
    rw [pyRound_intCast, pyRound_intCast]
  · push_neg at hbd
    have hB' : max 0 (min (((pyRound B : ℤ) : ℚ)) d) = d := by
      rw [min_eq_right (le_of_lt hbd), max_eq_right (le_of_lt hdpos)]
    rw [hA', hB']
    rw [if_neg (not_le.mpr haltd)]
    have hrd : pyRound d = pyRound B := by
      have h1 : pyRound B ≤ pyRound d := pyRound_mono hBd
      have h2 : pyRound d ≤ pyRound B := by
        have hf : ⌊d⌋ < pyRound B := Int.floor_lt.mpr hbd
        have h3 := pyRound_le_floor_add_one d
        omega
      omega
    rw [hs1, he1]
    unfold format_timestamp
    rw [pyRound_intCast, hrd]

/-! ### C4 and C6: concrete runs and witnesses -/

lemma parseFloat_dec {ip fp : List Char} (hip : ip ≠ [])
    (hdip : ∀ c ∈ ip, isDigitChar c) (hdfp : ∀ c ∈ fp, isDigitChar c) :
    parseFloat (ip ++ '.' :: fp) =
      some ((digitsVal ip : ℚ) + (digitsVal fp : ℚ) / 10 ^ fp.length) := by
  have hnosp : ∀ c ∈ ip ++ '.' :: fp, pyIsSpace c = false := by
    intro c hc
    rcases List.mem_append.mp hc with h1 | h1
    · exact (isDigitChar_props (hdip c h1)).2.1
    rcases List.mem_cons.mp h1 with rfl | h2
    · decide
    · exact (isDigitChar_props (hdfp c h2)).2.1
  unfold parseFloat
  rw [pyStrip_eq_self hnosp]
  rcases hip' : ip with _ | ⟨c0, ip2⟩
  · exact absurd hip' hip
  · have hc0 := isDigitChar_props (hdip c0 (by rw [hip']; exact List.mem_cons_self c0 ip2))
    rw [show ((c0 :: ip2) ++ '.' :: fp).head? = some c0 from rfl]
    rw [if_neg (by
      intro hcon
      exact hc0.2.2.2.2.1 (Option.some.inj hcon))]
    rw [if_neg (by
      intro hcon
      exact hc0.2.2.2.2.2 (Option.some.inj hcon))]
    unfold parseFloatDigits
    rw [← hip']
    rw [splitOnChar_append fp fun c hc => (isDigitChar_props (hdip c hc)).2.2.2.1]
    rw [splitOnChar_no_sep fun c hc => (isDigitChar_props (hdfp c hc)).2.2.2.1]
    dsimp only
    rw [if_pos ⟨Or.inl hip,
      List.all_eq_true.mpr fun c hc => (isDigitChar_props (hdip c hc)).1,
      List.all_eq_true.mpr fun c hc => (isDigitChar_props (hdfp c hc)).1⟩]
    rw [one_mul]

lemma parse_timecode_chars_dec {ip fp : List Char} (hip : ip ≠ [])
    (hdip : ∀ c ∈ ip, isDigitChar c) (hdfp : ∀ c ∈ fp, isDigitChar c) :
    parse_timecode_chars (ip ++ '.' :: fp) =
      some ((digitsVal ip : ℚ) + (digitsVal fp : ℚ) / 10 ^ fp.length) := by
  have hnosp : ∀ c ∈ ip ++ '.' :: fp, pyIsSpace c = false := by
    intro c hc
    rcases List.mem_append.mp hc with h1 | h1
    · exact (isDigitChar_props (hdip c h1)).2.1
    rcases List.mem_cons.mp h1 with rfl | h2
    · decide
    · exact (isDigitChar_props (hdfp c h2)).2.1
  unfold parse_timecode_chars
  rw [pyStrip_eq_self hnosp]
  rw [if_neg (by
    intro hcon
    exact hip (List.append_eq_nil.mp hcon).1)]
  rw [splitOnChar_no_sep (by
    intro c hc
    rcases List.mem_append.mp hc with h1 | h1
    · exact (isDigitChar_props (hdip c h1)).2.2.1
    rcases List.mem_cons.mp h1 with rfl | h2
    · decide
    · exact (isDigitChar_props (hdfp c h2)).2.2.1)]
  rw [parseParts_cons, parseFloat_dec hip hdip hdfp, parseParts_nil]

lemma inferred_some_pos {d : ℚ} (h : 0 < d) (segs : List Segment) :
    inferred_duration (some d) segs = some d := by
  unfold inferred_duration
  dsimp only
  rw [if_neg (not_le.mpr h)]

lemma parse_ten_three : parse_timecode "10.3" = some (103/10) := by
  show parse_timecode_chars ['1','0','.','3'] = _
  rw [show (['1','0','.','3'] : List Char) = ['1','0'] ++ '.' :: ['3'] from rfl]
  rw [parse_timecode_chars_dec (by decide) (by decide) (by decide)]
  rw [show digitsVal ['1','0'] = 10 from by decide,
    show digitsVal ['3'] = 3 from by decide]
  norm_num

lemma parse_ten_four : parse_timecode "10.4" = some (104/10) := by
  show parse_timecode_chars ['1','0','.','4'] = _
  rw [show (['1','0','.','4'] : List Char) = ['1','0'] ++ '.' :: ['4'] from rfl]
  rw [parse_timecode_chars_dec (by decide) (by decide) (by decide)]
  rw [show digitsVal ['1','0'] = 10 from by decide,
    show digitsVal ['4'] = 4 from by decide]
  norm_num

lemma format_ten : format_timestamp ((10:ℤ):ℚ) = "00:10" := by
  unfold format_timestamp
  rw [pyRound_intCast]
  decide

lemma parse_zz_ten : parse_timecode "00:10" = some ((10:ℤ):ℚ) := by
  rw [← format_ten, roundtrip_format_parse (by norm_num), pyRound_intCast]

/-- C4 counterexample: `("10.3", "10.4")` with duration 100 succeeds and
normalizes to `("00:10", "00:10")`, but feeding that pair back fails with
`EndNotAfterStart`, so resolve-range normalization is not idempotent as
claimed. -/
theorem c4_counterexample :
    validate_time_range "10.3" "10.4" (some 100) [] = .ok ("00:10", "00:10") ∧
    validate_time_range "00:10" "00:10" (some 100) [] = .error .EndNotAfterStart := by
  constructor
  · rw [validate_eq, inferred_some_pos (by norm_num)]
    dsimp only
    rw [if_neg (by decide), parse_ten_three]
    dsimp only
    rw [if_neg (by decide), parse_ten_four]
    dsimp only
    rw [if_neg (by norm_num)]
    rw [show max 0 (min ((103:ℚ)/10) 100) = ((103:ℚ)/10) by norm_num]
    rw [show max 0 (min ((104:ℚ)/10) 100) = ((104:ℚ)/10) by norm_num]
    have hf3 : format_timestamp ((103:ℚ)/10) = "00:10" := by
      unfold format_timestamp
      rw [show pyRound ((103:ℚ)/10) = 10 by unfold pyRound; norm_num]
      decide
    have hf4 : format_timestamp ((104:ℚ)/10) = "00:10" := by
      unfold format_timestamp
      rw [show pyRound ((104:ℚ)/10) = 10 by unfold pyRound; norm_num]
      decide
    rw [hf3, hf4]
  · rw [validate_eq, inferred_some_pos (by norm_num)]
    dsimp only
    rw [if_neg (by decide), parse_zz_ten, if_neg (by decide)]
    dsimp only
    rw [if_pos (le_refl _)]

lemma parse_one : parse_timecode "1" = some 1 := by
  rw [parse_timecode_digits (by decide) (by decide),
    show digitsVal "1".data = 1 from by decide]
  norm_num

lemma parse_five : parse_timecode "5" = some 5 := by
  rw [parse_timecode_digits (by decide) (by decide),
    show digitsVal "5".data = 5 from by decide]
  norm_num

lemma parse_six : parse_timecode "6" = some 6 := by
  rw [parse_timecode_digits (by decide) (by decide),
    show digitsVal "6".data = 6 from by decide]
  norm_num

lemma format_one : format_timestamp (1:ℚ) = "00:01" := by
  unfold format_timestamp
  rw [show pyRound (1:ℚ) = 1 by rw [show (1:ℚ) = ((1:ℤ):ℚ) by norm_num, pyRound_intCast]]
  decide

lemma format_six : format_timestamp (6:ℚ) = "00:06" := by
  unfold format_timestamp
  rw [show pyRound (6:ℚ) = 6 by rw [show (6:ℚ) = ((6:ℤ):ℚ) by norm_num, pyRound_intCast]]
  decide

lemma validate_one_six (segs : List Segment) :
    validate_time_range "1" "6" (some 100) segs = .ok ("00:01", "00:06") := by
  rw [validate_eq, inferred_some_pos (by norm_num)]
  dsimp only
  rw [if_neg (by decide), parse_one]
  dsimp only
  rw [if_neg (by decide), parse_six]
  dsimp only
  rw [if_neg (by norm_num)]
  rw [show max 0 (min (1:ℚ) 100) = 1 by norm_num,
    show max 0 (min (6:ℚ) 100) = 6 by norm_num]
  rw [format_one, format_six]

theorem c2_nonempty_slice_witness :
    filtered_segments [⟨"Hello", 0, 2⟩, ⟨"World", 5, 2⟩] "00:01" "00:06" ≠ [] := by
  have hsorted : SortedByStart [⟨"Hello", 0, 2⟩, ⟨"World", 5, 2⟩] := by
    unfold SortedByStart
    simp only [List.pairwise_cons, List.mem_cons, List.not_mem_nil, or_false]
    refine ⟨?_, ?_⟩
    · rintro s rfl
      norm_num
    · exact ⟨fun s hs => absurd hs (by simp), List.Pairwise.nil⟩
  exact c2_nonempty_slice [⟨"Hello", 0, 2⟩, ⟨"World", 5, 2⟩] "1" "6" (some 100)
    "00:01" "00:06" (by simp) hsorted (validate_one_six _)

theorem c4_normalize_idempotent_witness :
    validate_time_range "00:01" "00:06" (some 100) [] = .ok ("00:01", "00:06") :=
  c4_normalize_idempotent "1" "6" (some 100) [] "00:01" "00:06"
    (validate_one_six []) (by decide)

theorem c6_validate_errors_witness :
    validate_time_range "" "" none [] = .error .NoTranscriptLoaded ∧
    validate_time_range "x" "5" (some 10) [] = .error .InvalidStartFormat ∧
    validate_time_range "1" "y" (some 10) [] = .error .InvalidEndFormat ∧
    validate_time_range "5" "5" (some 10) [] = .error .EndNotAfterStart ∧
    (∃ p, validate_time_range "1" "5" (some 10) [] = .ok p) := by
  have hndm : ¬duration_missing (some 10) [] := by
    rintro ⟨h | ⟨d, hd, hle⟩, _⟩
    · exact Option.noConfusion h
    · have hd10 : d = 10 := (Option.some.inj hd).symm
      subst hd10
      norm_num at hle
  have hgood1 : ¬bad_time "1" := by
    rintro ⟨_, hpn⟩
    rw [parse_one] at hpn
    exact Option.noConfusion hpn
  have hgood5 : ¬bad_time "5" := by
    rintro ⟨_, hpn⟩
    rw [parse_five] at hpn
    exact Option.noConfusion hpn
  have hbadx : bad_time "x" := ⟨by decide, by decide⟩
  have hbady : bad_time "y" := ⟨by decide, by decide⟩
  refine ⟨?_, ?_, ?_, ?_, ?_⟩
  · exact (c6_validate_errors "" "" none []).1.mpr ⟨Or.inl rfl, rfl⟩
  · exact (c6_validate_errors "x" "5" (some 10) []).2.1.mpr ⟨hndm, hbadx⟩
  · exact (c6_validate_errors "1" "y" (some 10) []).2.2.1.mpr ⟨hndm, hgood1, hbady⟩
  · refine (c6_validate_errors "5" "5" (some 10) []).2.2.2.1.mpr
      ⟨10, inferred_some_pos (by norm_num) [], hgood5, hgood5, ?_⟩
    unfold clampTo resolved_start resolved_end
    rw [parse_five]
    norm_num
  · refine (c6_validate_errors "1" "5" (some 10) []).2.2.2.2.mpr
      ⟨10, inferred_some_pos (by norm_num) [], hgood1, hgood5, ?_⟩
    unfold clampTo resolved_start resolved_end
    rw [parse_one, parse_five]
    norm_num

/-! ### C8: filename sanitization -/

lemma collapseWsAux_props (cs : List Char) :
    ∀ b, ∀ c ∈ collapseWsAux b cs, pyIsSpace c = false ∧ (c = '_' ∨ c ∈ cs) := by
  induction cs with
  | nil =>
    intro b c hc
    simp [collapseWsAux] at hc
  | cons c0 rest ih =>
    intro b c hc
    unfold collapseWsAux at hc
    by_cases hsp : pyIsSpace c0
    · rw [if_pos hsp] at hc
      by_cases hb : b = true
      · rw [if_pos hb] at hc
        obtain ⟨h1, h2⟩ := ih true c hc
        exact ⟨h1, h2.imp id (List.mem_cons_of_mem c0)⟩
      · rw [if_neg hb] at hc
        rcases List.mem_cons.mp hc with rfl | hc2
        · exact ⟨by decide, Or.inl rfl⟩
        · obtain ⟨h1, h2⟩ := ih true c hc2
          exact ⟨h1, h2.imp id (List.mem_cons_of_mem c0)⟩
    · rw [if_neg hsp] at hc
      rcases List.mem_cons.mp hc with rfl | hc2
      · exact ⟨by simpa using hsp, Or.inr (List.mem_cons_self _ _)⟩
      · obtain ⟨h1, h2⟩ := ih false c hc2
        exact ⟨h1, h2.imp id (List.mem_cons_of_mem c0)⟩

lemma stripUnderscores_subset {cs : List Char} : ∀ c ∈ stripUnderscores cs, c ∈ cs := by
  intro c hc
  unfold stripUnderscores at hc
  rw [List.mem_reverse] at hc
  have hc2 := List.dropWhile_subset _ hc
  rw [List.mem_reverse] at hc2
  exact List.dropWhile_subset _ hc2

lemma stripUnderscores_ends (cs : List Char) :
    (stripUnderscores cs).head? ≠ some '_' ∧
      (stripUnderscores cs).getLast? ≠ some '_' := by
  unfold stripUnderscores
  constructor
  · rw [List.head?_reverse]
    rcases he : (List.dropWhile (fun c => c = '_')
        (List.dropWhile (fun c => c = '_') cs).reverse) with _ | ⟨a, as⟩
    · simp
    · rw [← he, getLast?_dropWhile (by rw [he]; simp), List.getLast?_reverse]
      intro hcon
      have hfalse := head?_dropWhile_false hcon
      simp at hfalse
  · rw [List.getLast?_reverse]
    intro hcon
    have hfalse := head?_dropWhile_false hcon
    simp at hfalse

/-- C8: `sanitize_filename` output contains none of the stripped illegal
characters and no whitespace, is nonempty, never starts or ends with an
underscore, and matches the two spec examples. -/
theorem c8_sanitize (name : String) :
    (∀ c ∈ (sanitize_filename name).data, illegalChar c = false ∧ pyIsSpace c = false) ∧
    sanitize_filename name ≠ "" ∧
    (sanitize_filename name).data.head? ≠ some '_' ∧
    (sanitize_filename name).data.getLast? ≠ some '_' ∧
    sanitize_filename "My:Video?\"Title\"<2024>" = "MyVideoTitle2024" ∧
    sanitize_filename "  " = "transcript" := by
  refine ⟨?_, ?_, ?_, ?_, by decide, by decide⟩
  · intro c hc
    unfold sanitize_filename at hc
    by_cases h3 : stripUnderscores (collapseWs
        (List.filter (fun c => !illegalChar c) name.data)) = []
    · rw [if_pos h3] at hc
      exact (by decide :
        ∀ x ∈ ("transcript" : String).data, illegalChar x = false ∧ pyIsSpace x = false) c hc
    · rw [if_neg h3, data_mk] at hc
      have hc2 := stripUnderscores_subset c hc
      unfold collapseWs at hc2
      obtain ⟨hsp, hor⟩ := collapseWsAux_props _ false c hc2
      refine ⟨?_, hsp⟩
      rcases hor with rfl | hmem
      · decide
      · have := (List.mem_filter.mp hmem).2
        simpa using this
  · unfold sanitize_filename
    by_cases h3 : stripUnderscores (collapseWs
        (List.filter (fun c => !illegalChar c) name.data)) = []
    · rw [if_pos h3]
      decide
    · rw [if_neg h3]
      intro hcon
      exact h3 (congrArg String.data hcon)
  · unfold sanitize_filename
    by_cases h3 : stripUnderscores (collapseWs
        (List.filter (fun c => !illegalChar c) name.data)) = []
    · rw [if_pos h3]
      decide
    · rw [if_neg h3, data_mk]
      exact (stripUnderscores_ends _).1
  · unfold sanitize_filename
    by_cases h3 : stripUnderscores (collapseWs
        (List.filter (fun c => !illegalChar c) name.data)) = []
    · rw [if_pos h3]
      decide
    · rw [if_neg h3, data_mk]
      exact (stripUnderscores_ends _).2

/-- Witness for C8: properties observed on `"a b"` plus the two examples. -/
theorem c8_sanitize_witness :
    illegalChar 'a' = false ∧ pyIsSpace 'a' = false ∧
    sanitize_filename "a b" ≠ "" ∧
    sanitize_filename "My:Video?\"Title\"<2024>" = "MyVideoTitle2024" ∧
    sanitize_filename "  " = "transcript" := by
  have h := c8_sanitize "a b"
  have hmem : 'a' ∈ (sanitize_filename "a b").data := by decide
  exact ⟨(h.1 'a' hmem).1, (h.1 'a' hmem).2, h.2.1, h.2.2.2.2.1, h.2.2.2.2.2⟩

end YT
